import Mathlib

namespace FestivalPlanner

/-! Association-list model of a JavaScript `Map` with numeric keys.
Keys appear in insertion order; `Map.set` on a fresh key appends at the end. -/

def lookupA {α : Type} (k : Nat) : List (Nat × α) → Option α
  | [] => none
  | (k', v) :: rest => if k' = k then some v else lookupA k rest

def updateA {α : Type} (k : Nat) (f : α → α) : List (Nat × α) → List (Nat × α)
  | [] => []
  | (k', v) :: rest => if k' = k then (k', f v) :: rest else (k', v) :: updateA k f rest

def removeA {α : Type} (k : Nat) : List (Nat × α) → List (Nat × α)
  | [] => []
  | (k', v) :: rest => if k' = k then rest else (k', v) :: removeA k rest

/-! JavaScript string `<` is lexicographic comparison of code units.  For the
fixed-width "HH:MM" tokens used by the conflict detector this is plain
lexicographic comparison of the characters. -/

def strLtAux : List Char → List Char → Bool
  | [], [] => false
  | [], _ :: _ => true
  | _ :: _, [] => false
  | a :: as, b :: bs =>
      if a.toNat < b.toNat then true
      else if b.toNat < a.toNat then false
      else strLtAux as bs

def strLt (s t : String) : Bool := strLtAux s.data t.data

/-! ## Conflict detector (`getConflicts`, playlistController.ts)

A `SelRow` is one row of the SQL join of selections × acts × stages × users
for one `(groupId, eventId)` pair, exactly the fields the detector reads. -/

structure SelRow where
  user_id : Nat
  act_id : Nat
  act_name : String
  day_id : Nat
  stage_id : Nat
  stage_name : String
  start_time : String
  end_time : String
  display_name : String
  deriving DecidableEq, Repr

structure ActRef where
  actId : Nat
  actName : String
  stageId : Nat
  stageName : String
  startTime : String
  endTime : String
  deriving DecidableEq, Repr

structure Conflict where
  userId : Nat
  userName : String
  dayId : Nat
  acts : List ActRef
  deriving DecidableEq, Repr

/-- One step of accumulating a row into a JS `Map` of lists:
`if (!m.has(k)) m.set(k, []); m.get(k).push(v)`. -/
def pushGroup (k : Nat) (v : SelRow) (m : List (Nat × List SelRow)) :
    List (Nat × List SelRow) :=
  if (lookupA k m).isSome then updateA k (fun l => l ++ [v]) m else m ++ [(k, [v])]

/-- The `for (const sel of sels) { ... map.get(key).push(sel) }` grouping loops. -/
def groupByKey (key : SelRow → Nat) (sels : List SelRow) : List (Nat × List SelRow) :=
  sels.foldl (fun m s => pushGroup (key s) s m) []

/-- The double loop `for i; for j = i+1` enumerating each unordered pair once,
earlier element first. -/
def pairsAfter : List SelRow → List (SelRow × SelRow)
  | [] => []
  | a :: rest => rest.map (fun b => (a, b)) ++ pairsAfter rest

/-- `a.start_time < b.end_time && b.start_time < a.end_time`
(JS string comparison on "HH:MM" tokens). -/
def overlaps (a b : SelRow) : Bool :=
  strLt a.start_time b.end_time && strLt b.start_time a.end_time

def mkActRef (a : SelRow) : ActRef :=
  { actId := a.act_id, actName := a.act_name, stageId := a.stage_id,
    stageName := a.stage_name, startTime := a.start_time, endTime := a.end_time }

/-- The object pushed onto `conflicts` for an overlapping pair `(a, b)`. -/
def mkConflict (uid dayId : Nat) (a b : SelRow) : Conflict :=
  { userId := uid, userName := a.display_name, dayId := dayId,
    acts := [mkActRef a, mkActRef b] }

/-- Conflicts contributed by one user-day partition: every `i < j` pair,
filtered by the overlap test, in loop order. -/
def dayConflicts (uid dayId : Nat) (daySels : List SelRow) : List Conflict :=
  ((pairsAfter daySels).filter (fun p => overlaps p.1 p.2)).map
    (fun p => mkConflict uid dayId p.1 p.2)

/-- The core of `getConflicts`: group rows by `user_id`, then by `day_id`, then
report every overlapping pair inside each user-day partition, in loop order. -/
def getConflicts (sels : List SelRow) : List Conflict :=
  (groupByKey (·.user_id) sels).flatMap fun p =>
    (groupByKey (·.day_id) p.2).flatMap fun q =>
      dayConflicts p.1 q.1 q.2

/-! ### Association-list lemmas -/

theorem lookupA_eq_none_iff {α : Type} (k : Nat) (l : List (Nat × α)) :
    lookupA k l = none ↔ k ∉ l.map Prod.fst := by
  induction l with
  | nil => simp [lookupA]
  | cons p rest ih =>
    obtain ⟨k', v⟩ := p
    by_cases h : k' = k
    · subst h
      simp [lookupA]
    · simp [lookupA, h, Ne.symm h, ih]

theorem lookupA_mem {α : Type} {k : Nat} {v : α} {l : List (Nat × α)}
    (h : lookupA k l = some v) : (k, v) ∈ l := by
  induction l with
  | nil => simp [lookupA] at h
  | cons p rest ih =>
    obtain ⟨k', v'⟩ := p
    by_cases hk : k' = k
    · subst hk
      simp [lookupA] at h
      subst h
      exact List.mem_cons_self _ _
    · simp only [lookupA, if_neg hk] at h
      exact List.mem_cons_of_mem _ (ih h)

theorem lookupA_of_mem_nodup {α : Type} {p : Nat × α} {l : List (Nat × α)}
    (hnd : (l.map Prod.fst).Nodup) (h : p ∈ l) : lookupA p.1 l = some p.2 := by
  induction l with
  | nil => simp at h
  | cons q rest ih =>
    obtain ⟨k', v'⟩ := q
    rw [List.map_cons, List.nodup_cons] at hnd
    rcases List.mem_cons.mp h with h | h
    · subst h
      simp [lookupA]
    · have hne : k' ≠ p.1 := by
        intro hkp
        exact hnd.1 (List.mem_map.mpr ⟨p, h, hkp.symm⟩)
      simp only [lookupA, if_neg hne]
      exact ih hnd.2 h

theorem mem_iff_lookupA {α : Type} {p : Nat × α} {l : List (Nat × α)}
    (hnd : (l.map Prod.fst).Nodup) : p ∈ l ↔ lookupA p.1 l = some p.2 :=
  ⟨lookupA_of_mem_nodup hnd, fun h => lookupA_mem h⟩

theorem lookupA_updateA_self {α : Type} (k : Nat) (f : α → α) (l : List (Nat × α)) :
    lookupA k (updateA k f l) = (lookupA k l).map f := by
  induction l with
  | nil => simp [lookupA, updateA]
  | cons p rest ih =>
    obtain ⟨k', v⟩ := p
    by_cases h : k' = k <;> simp [lookupA, updateA, h, ih]

theorem lookupA_updateA_ne {α : Type} {k k' : Nat} (h : k' ≠ k) (f : α → α)
    (l : List (Nat × α)) : lookupA k' (updateA k f l) = lookupA k' l := by
  induction l with
  | nil => simp [lookupA, updateA]
  | cons p rest ih =>
    obtain ⟨k'', v⟩ := p
    by_cases h1 : k'' = k
    · subst h1
      have h2 : ¬ (k'' = k') := fun hh => h hh.symm
      simp [lookupA, updateA, h2]
    · simp [lookupA, updateA, h1, ih]

theorem map_fst_updateA {α : Type} (k : Nat) (f : α → α) (l : List (Nat × α)) :
    (updateA k f l).map Prod.fst = l.map Prod.fst := by
  induction l with
  | nil => simp [updateA]
  | cons p rest ih =>
    obtain ⟨k', v⟩ := p
    by_cases h : k' = k <;> simp [updateA, h, ih]

theorem lookupA_append {α : Type} (k : Nat) (l l' : List (Nat × α)) :
    lookupA k (l ++ l') =
      match lookupA k l with
      | some v => some v
      | none => lookupA k l' := by
  induction l with
  | nil => simp [lookupA]
  | cons p rest ih =>
    obtain ⟨k', v⟩ := p
    by_cases h : k' = k <;> simp [lookupA, h, ih]

/-! ### `groupByKey` characterization -/

theorem lookupA_pushGroup_self (k : Nat) (v : SelRow) (m : List (Nat × List SelRow)) :
    lookupA k (pushGroup k v m) = some ((lookupA k m).getD [] ++ [v]) := by
  unfold pushGroup
  cases h : lookupA k m with
  | some l => simp [h, lookupA_updateA_self]
  | none => simp [h, lookupA_append, lookupA]

theorem lookupA_pushGroup_ne {k k' : Nat} (h : k' ≠ k) (v : SelRow)
    (m : List (Nat × List SelRow)) : lookupA k' (pushGroup k v m) = lookupA k' m := by
  unfold pushGroup
  cases hm : lookupA k m with
  | some l => simp [hm, lookupA_updateA_ne h]
  | none =>
    simp only [hm, Option.isSome_none, Bool.false_eq_true, if_false, lookupA_append]
    cases hl : lookupA k' m with
    | some w => simp
    | none => simp [lookupA, Ne.symm h]

theorem groupFold_lookup (key : SelRow → Nat) (sels : List SelRow)
    (m : List (Nat × List SelRow)) (k : Nat) :
    lookupA k (sels.foldl (fun m s => pushGroup (key s) s m) m) =
      match lookupA k m with
      | some l => some (l ++ sels.filter (fun s => key s == k))
      | none =>
        if (sels.filter (fun s => key s == k)).isEmpty then none
        else some (sels.filter (fun s => key s == k)) := by
  induction sels generalizing m with
  | nil =>
    simp only [List.foldl_nil, List.filter_nil]
    cases h : lookupA k m <;> simp [h, List.isEmpty]
  | cons s rest ih =>
    simp only [List.foldl_cons]
    rw [ih]
    by_cases hk : key s = k
    · subst hk
      rw [lookupA_pushGroup_self]
      cases h : lookupA (key s) m with
      | some l => simp [h, List.filter_cons, List.append_assoc]
      | none => simp [h, List.filter_cons]
    · rw [lookupA_pushGroup_ne (fun hh => hk hh.symm)]
      cases h : lookupA k m with
      | some l => simp [h, List.filter_cons, hk]
      | none => simp [h, List.filter_cons, hk]

theorem lookupA_groupByKey (key : SelRow → Nat) (sels : List SelRow) (k : Nat) :
    lookupA k (groupByKey key sels) =
      if (sels.filter (fun s => key s == k)).isEmpty then none
      else some (sels.filter (fun s => key s == k)) := by
  unfold groupByKey
  rw [groupFold_lookup]
  simp [lookupA]

theorem nodup_keys_groupFold (key : SelRow → Nat) (sels : List SelRow)
    (m : List (Nat × List SelRow)) (hm : (m.map Prod.fst).Nodup) :
    ((sels.foldl (fun m s => pushGroup (key s) s m) m).map Prod.fst).Nodup := by
  induction sels generalizing m with
  | nil => simpa using hm
  | cons s rest ih =>
    simp only [List.foldl_cons]
    apply ih
    unfold pushGroup
    cases h : lookupA (key s) m with
    | some l => simpa [h, map_fst_updateA] using hm
    | none =>
      have hnot : key s ∉ m.map Prod.fst := (lookupA_eq_none_iff _ _).mp h
      simp [h, List.nodup_append, hm, hnot]

theorem nodup_keys_groupByKey (key : SelRow → Nat) (sels : List SelRow) :
    ((groupByKey key sels).map Prod.fst).Nodup :=
  nodup_keys_groupFold key sels [] (by simp)

theorem mem_groupByKey {key : SelRow → Nat} {sels : List SelRow} {p : Nat × List SelRow} :
    p ∈ groupByKey key sels ↔
      ¬ (sels.filter (fun s => key s == p.1)).isEmpty ∧
        p.2 = sels.filter (fun s => key s == p.1) := by
  rw [mem_iff_lookupA (nodup_keys_groupByKey key sels), lookupA_groupByKey]
  by_cases h : (sels.filter (fun s => key s == p.1)).isEmpty <;> simp [h, eq_comm]

/-! ### Pair-enumeration lemmas -/

theorem mem_pairsAfter_cons {a b x : SelRow} {xs : List SelRow} :
    (a, b) ∈ pairsAfter (x :: xs) ↔ (x = a ∧ b ∈ xs) ∨ (a, b) ∈ pairsAfter xs := by
  simp only [pairsAfter, List.mem_append, List.mem_map, Prod.mk.injEq]
  constructor
  · rintro (⟨y, hy, hxa, hyb⟩ | h)
    · exact Or.inl ⟨hxa, hyb ▸ hy⟩
    · exact Or.inr h
  · rintro (⟨hxa, hb⟩ | h)
    · exact Or.inl ⟨b, hb, hxa, rfl⟩
    · exact Or.inr h

theorem pairsAfter_subset {a b : SelRow} {l : List SelRow}
    (h : (a, b) ∈ pairsAfter l) : a ∈ l ∧ b ∈ l := by
  induction l with
  | nil => simp [pairsAfter] at h
  | cons x xs ih =>
    rcases mem_pairsAfter_cons.mp h with ⟨hxa, hb⟩ | h
    · exact ⟨hxa ▸ List.mem_cons_self _ _, List.mem_cons_of_mem _ hb⟩
    · exact ⟨List.mem_cons_of_mem _ (ih h).1, List.mem_cons_of_mem _ (ih h).2⟩

theorem pairsAfter_filter (p : SelRow → Bool) (l : List SelRow) (a b : SelRow) :
    (a, b) ∈ pairsAfter (l.filter p) ↔
      ((a, b) ∈ pairsAfter l ∧ p a = true ∧ p b = true) := by
  induction l with
  | nil => simp [pairsAfter]
  | cons x xs ih =>
    by_cases hx : p x = true
    · rw [List.filter_cons_of_pos hx, mem_pairsAfter_cons, mem_pairsAfter_cons, ih]
      constructor
      · rintro (⟨hxa, hb⟩ | ⟨h, ha, hb⟩)
        · rw [List.mem_filter] at hb
          exact ⟨Or.inl ⟨hxa, hb.1⟩, hxa ▸ hx, hb.2⟩
        · exact ⟨Or.inr h, ha, hb⟩
      · rintro ⟨hxa | h, ha, hb⟩
        · exact Or.inl ⟨hxa.1, List.mem_filter.mpr ⟨hxa.2, hb⟩⟩
        · exact Or.inr ⟨h, ha, hb⟩
    · rw [List.filter_cons_of_neg (by simpa using hx), ih, mem_pairsAfter_cons]
      constructor
      · rintro ⟨h, ha, hb⟩
        exact ⟨Or.inr h, ha, hb⟩
      · rintro ⟨hxa | h, ha, hb⟩
        · exact absurd (hxa.1 ▸ ha) hx
        · exact ⟨h, ha, hb⟩

theorem pairsAfter_asymm {l : List SelRow} (hnd : l.Nodup) {a b : SelRow}
    (hab : (a, b) ∈ pairsAfter l) (hba : (b, a) ∈ pairsAfter l) : False := by
  induction l with
  | nil => simp [pairsAfter] at hab
  | cons x xs ih =>
    rw [List.nodup_cons] at hnd
    rcases mem_pairsAfter_cons.mp hab with ⟨h1, hb⟩ | hab'
    · rcases mem_pairsAfter_cons.mp hba with ⟨h2, ha⟩ | hba'
      · subst h1
        subst h2
        exact hnd.1 hb
      · subst h1
        exact hnd.1 (pairsAfter_subset hba').2
    · rcases mem_pairsAfter_cons.mp hba with ⟨h2, ha⟩ | hba'
      · subst h2
        exact hnd.1 (pairsAfter_subset hab').2
      · exact ih hnd.2 hab' hba'

theorem pairsAfter_nodup {l : List SelRow} (hnd : l.Nodup) : (pairsAfter l).Nodup := by
  induction l with
  | nil => simp [pairsAfter]
  | cons x xs ih =>
    rw [List.nodup_cons] at hnd
    rw [pairsAfter, List.nodup_append]
    refine ⟨?_, ih hnd.2, ?_⟩
    · exact hnd.2.map (fun p q h => by simpa using congrArg Prod.snd h)
    · intro p hp hq
      obtain ⟨y, hy, rfl⟩ := List.mem_map.mp hp
      exact hnd.1 (pairsAfter_subset hq).1

/-! ### Membership characterization of `getConflicts` -/

theorem mem_dayConflicts {c : Conflict} {u d : Nat} {L : List SelRow} :
    c ∈ dayConflicts u d L ↔
      ∃ x y, (x, y) ∈ pairsAfter L ∧ overlaps x y = true ∧
        c = mkConflict u d x y := by
  simp only [dayConflicts, List.mem_map, List.mem_filter]
  constructor
  · rintro ⟨⟨x, y⟩, ⟨hmem, hov⟩, rfl⟩
    exact ⟨x, y, hmem, hov, rfl⟩
  · rintro ⟨x, y, hmem, hov, rfl⟩
    exact ⟨(x, y), ⟨hmem, hov⟩, rfl⟩

theorem mem_getConflicts {c : Conflict} {sels : List SelRow} :
    c ∈ getConflicts sels ↔
      ∃ x y, (x, y) ∈ pairsAfter sels ∧
        y.user_id = x.user_id ∧ y.day_id = x.day_id ∧
        overlaps x y = true ∧
        c = mkConflict x.user_id x.day_id x y := by
  simp only [getConflicts, List.mem_flatMap]
  constructor
  · rintro ⟨p, hp, q, hq, hc⟩
    obtain ⟨-, hp2⟩ := mem_groupByKey.mp hp
    obtain ⟨-, hq2⟩ := mem_groupByKey.mp hq
    obtain ⟨x, y, hmem, hov, rfl⟩ := mem_dayConflicts.mp hc
    rw [hq2, hp2] at hmem
    rw [pairsAfter_filter] at hmem
    obtain ⟨hmem', hdx, hdy⟩ := hmem
    rw [pairsAfter_filter] at hmem'
    obtain ⟨hmem'', hux, huy⟩ := hmem'
    have hux' : x.user_id = p.1 := by simpa using hux
    have hdx' : x.day_id = q.1 := by simpa using hdx
    refine ⟨x, y, hmem'', ?_, ?_, hov, by rw [hux', hdx']⟩
    · rw [hux']; simpa using huy
    · rw [hdx']; simpa using hdy
  · rintro ⟨x, y, hmem, huy, hdy, hov, rfl⟩
    have hx := (pairsAfter_subset hmem).1
    refine ⟨(x.user_id, sels.filter (fun s => s.user_id == x.user_id)), ?_,
      (x.day_id, (sels.filter (fun s => s.user_id == x.user_id)).filter
        (fun s => s.day_id == x.day_id)), ?_, ?_⟩
    · rw [mem_groupByKey]
      refine ⟨?_, rfl⟩
      rw [List.isEmpty_iff]
      intro hemp
      have : x ∈ sels.filter (fun s => s.user_id == x.user_id) :=
        List.mem_filter.mpr ⟨hx, by simp⟩
      rw [hemp] at this
      simp at this
    · rw [mem_groupByKey]
      refine ⟨?_, rfl⟩
      rw [List.isEmpty_iff]
      intro hemp
      have : x ∈ (sels.filter (fun s => s.user_id == x.user_id)).filter
          (fun s => s.day_id == x.day_id) :=
        List.mem_filter.mpr ⟨List.mem_filter.mpr ⟨hx, by simp⟩, by simp⟩
      rw [hemp] at this
      simp at this
    · rw [mem_dayConflicts]
      refine ⟨x, y, ?_, hov, rfl⟩
      rw [pairsAfter_filter]
      refine ⟨?_, by simp, by simp [hdy]⟩
      rw [pairsAfter_filter]
      exact ⟨hmem, by simp, by simp [huy]⟩

/-! ### No-duplicate-records machinery -/

theorem nodup_flatMap_of {α β : Type} (l : List α) (f : α → List β) (hl : l.Nodup)
    (h1 : ∀ a ∈ l, (f a).Nodup)
    (h2 : ∀ a ∈ l, ∀ a' ∈ l, a ≠ a' → ∀ b ∈ f a, b ∉ f a') :
    (l.flatMap f).Nodup := by
  induction l with
  | nil => simp
  | cons x xs ih =>
    rw [List.flatMap_cons, List.nodup_append]
    rw [List.nodup_cons] at hl
    refine ⟨h1 x (List.mem_cons_self _ _), ?_, ?_⟩
    · exact ih hl.2 (fun a ha => h1 a (List.mem_cons_of_mem _ ha))
        (fun a ha a' ha' => h2 a (List.mem_cons_of_mem _ ha) a' (List.mem_cons_of_mem _ ha'))
    · intro b hb hb'
      rw [List.mem_flatMap] at hb'
      obtain ⟨a, ha, hba⟩ := hb'
      have hxa : x ≠ a := fun h => hl.1 (h ▸ ha)
      exact h2 x (List.mem_cons_self _ _) a (List.mem_cons_of_mem _ ha) hxa b hb hba

theorem groupByKey_key_inj {key : SelRow → Nat} {sels : List SelRow}
    {q q' : Nat × List SelRow} (hq : q ∈ groupByKey key sels)
    (hq' : q' ∈ groupByKey key sels) (h : q.1 = q'.1) : q = q' := by
  obtain ⟨-, h2⟩ := mem_groupByKey.mp hq
  obtain ⟨-, h2'⟩ := mem_groupByKey.mp hq'
  have : q.2 = q'.2 := by rw [h2, h2', h]
  exact Prod.ext h this

theorem fields_of_mem_dayConflicts {c : Conflict} {u d : Nat} {L : List SelRow}
    (hc : c ∈ dayConflicts u d L) : c.userId = u ∧ c.dayId = d := by
  obtain ⟨x, y, -, -, rfl⟩ := mem_dayConflicts.mp hc
  exact ⟨rfl, rfl⟩

theorem dayConflicts_nodup (u d : Nat) (L : List SelRow) (hL : L.Nodup)
    (hinj : ∀ x ∈ L, ∀ y ∈ L, x.act_id = y.act_id → x = y) :
    (dayConflicts u d L).Nodup := by
  unfold dayConflicts
  apply List.Nodup.map_on ?_ ((pairsAfter_nodup hL).filter _)
  intro p hp q hq heq
  have hpm := (List.mem_filter.mp hp).1
  have hqm := (List.mem_filter.mp hq).1
  have hp1 := pairsAfter_subset (a := p.1) (b := p.2) hpm
  have hq1 := pairsAfter_subset (a := q.1) (b := q.2) hqm
  have hacts : ([mkActRef p.1, mkActRef p.2] : List ActRef) =
      [mkActRef q.1, mkActRef q.2] := congrArg Conflict.acts heq
  simp only [List.cons.injEq, and_true] at hacts
  have e1 : p.1 = q.1 := hinj p.1 hp1.1 q.1 hq1.1 (congrArg ActRef.actId hacts.1)
  have e2 : p.2 = q.2 := hinj p.2 hp1.2 q.2 hq1.2 (congrArg ActRef.actId hacts.2)
  exact Prod.ext e1 e2

theorem getConflicts_nodup (sels : List SelRow)
    (hk : (sels.map fun s => (s.user_id, s.act_id)).Nodup) :
    (getConflicts sels).Nodup := by
  have hnd : sels.Nodup := hk.of_map _
  unfold getConflicts
  apply nodup_flatMap_of _ _ ((nodup_keys_groupByKey _ _).of_map _)
  · intro p hp
    apply nodup_flatMap_of _ _ ((nodup_keys_groupByKey _ _).of_map _)
    · intro q hq
      obtain ⟨-, hp2⟩ := mem_groupByKey.mp hp
      obtain ⟨-, hq2⟩ := mem_groupByKey.mp hq
      apply dayConflicts_nodup
      · rw [hq2, hp2]
        exact (hnd.filter _).filter _
      · intro x hx y hy hact
        rw [hq2, hp2] at hx hy
        have hx1 := List.mem_filter.mp (List.mem_filter.mp hx).1
        have hy1 := List.mem_filter.mp (List.mem_filter.mp hy).1
        have hux : x.user_id = p.1 := by simpa using hx1.2
        have huy : y.user_id = p.1 := by simpa using hy1.2
        exact List.inj_on_of_nodup_map hk hx1.1 hy1.1
          (by rw [Prod.mk.injEq]; exact ⟨hux.trans huy.symm, hact⟩)
    · intro q hq q' hq' hne c hc hc'
      have h1 := (fields_of_mem_dayConflicts hc).2
      have h2 := (fields_of_mem_dayConflicts hc').2
      exact hne (groupByKey_key_inj hq hq' (h1 ▸ h2 ▸ rfl))
  · intro p hp p' hp' hne c hc hc'
    rw [List.mem_flatMap] at hc hc'
    obtain ⟨q, -, hcq⟩ := hc
    obtain ⟨q', -, hcq'⟩ := hc'
    have h1 := (fields_of_mem_dayConflicts hcq).1
    have h2 := (fields_of_mem_dayConflicts hcq').1
    exact hne (groupByKey_key_inj hp hp' (h1 ▸ h2 ▸ rfl))

theorem strLtAux_irrefl : ∀ l : List Char, strLtAux l l = false
  | [] => rfl
  | a :: as => by simp [strLtAux, strLtAux_irrefl as]

theorem strLt_irrefl (s : String) : strLt s s = false := strLtAux_irrefl s.data

/-! ### Claim theorems for the conflict detector -/

/-- Claim C1: for a pair of rows `(a, b)` selected by the same user on the same
day, with `a` encountered before `b` in the input list, the detector reports
the conflict record `mkConflict a.user_id a.day_id a b` (first-encountered act
listed first) if and only if `a.startTime < b.endTime` and
`b.startTime < a.endTime` under direct lexical comparison of the "HH:MM"
strings; each such unordered pair yields exactly one record (count 1, and the
swapped record never appears), and a pair that only touches at an endpoint
(`a.endTime = b.startTime`) yields none. -/
theorem conflict_pair_iff_overlap (sels : List SelRow) (a b : SelRow)
    (hk : (sels.map fun s => (s.user_id, s.act_id)).Nodup)
    (hab : (a, b) ∈ pairsAfter sels)
    (hu : b.user_id = a.user_id) (hd : b.day_id = a.day_id) :
    (mkConflict a.user_id a.day_id a b ∈ getConflicts sels ↔
      (strLt a.start_time b.end_time = true ∧ strLt b.start_time a.end_time = true)) ∧
    List.count (mkConflict a.user_id a.day_id a b) (getConflicts sels) =
      (if overlaps a b then 1 else 0) ∧
    mkConflict a.user_id a.day_id b a ∉ getConflicts sels ∧
    (a.end_time = b.start_time → mkConflict a.user_id a.day_id a b ∉ getConflicts sels) := by
  have hnd : sels.Nodup := hk.of_map _
  have hsub := pairsAfter_subset hab
  have hiff : mkConflict a.user_id a.day_id a b ∈ getConflicts sels ↔
      (strLt a.start_time b.end_time = true ∧ strLt b.start_time a.end_time = true) := by
    constructor
    · intro hc
      obtain ⟨x, y, hmem, huy, hdy, hov, heq⟩ := mem_getConflicts.mp hc
      have hacts : ([mkActRef a, mkActRef b] : List ActRef) =
          [mkActRef x, mkActRef y] := congrArg Conflict.acts heq
      simp only [List.cons.injEq, and_true] at hacts
      have hsa : a.start_time = x.start_time := congrArg ActRef.startTime hacts.1
      have hea : a.end_time = x.end_time := congrArg ActRef.endTime hacts.1
      have hsb : b.start_time = y.start_time := congrArg ActRef.startTime hacts.2
      have heb : b.end_time = y.end_time := congrArg ActRef.endTime hacts.2
      rw [overlaps, Bool.and_eq_true] at hov
      rw [hsa, hea, hsb, heb]
      exact hov
    · intro hov
      exact mem_getConflicts.mpr
        ⟨a, b, hab, hu, hd, by rw [overlaps, Bool.and_eq_true]; exact hov, rfl⟩
  refine ⟨hiff, ?_, ?_, ?_⟩
  · by_cases h : overlaps a b = true
    · rw [if_pos h]
      rw [overlaps, Bool.and_eq_true] at h
      exact List.count_eq_one_of_mem (getConflicts_nodup sels hk) (hiff.mpr h)
    · rw [if_neg h]
      rw [List.count_eq_zero]
      intro hc
      exact h (by rw [overlaps, Bool.and_eq_true]; exact hiff.mp hc)
  · intro hc
    obtain ⟨x, y, hmem, huy, hdy, hov, heq⟩ := mem_getConflicts.mp hc
    have hx := pairsAfter_subset hmem
    have hacts : ([mkActRef b, mkActRef a] : List ActRef) =
        [mkActRef x, mkActRef y] := congrArg Conflict.acts heq
    simp only [List.cons.injEq, and_true] at hacts
    have huid : a.user_id = x.user_id := congrArg Conflict.userId heq
    have hxb : x = b := by
      apply List.inj_on_of_nodup_map hk hx.1 hsub.2
      rw [Prod.mk.injEq]
      exact ⟨huid.symm.trans hu.symm, (congrArg ActRef.actId hacts.1).symm⟩
    have hya : y = a := by
      apply List.inj_on_of_nodup_map hk hx.2 hsub.1
      rw [Prod.mk.injEq]
      exact ⟨huy.trans (huid.symm.trans hu.symm) |>.trans hu, (congrArg ActRef.actId hacts.2).symm⟩
    rw [hxb, hya] at hmem
    exact pairsAfter_asymm hnd hab hmem
  · intro hend hc
    have hov := hiff.mp hc
    rw [← hend, strLt_irrefl] at hov
    exact Bool.false_ne_true hov.2

/-- Claim C2: every conflict produced by the detector references two selection
rows that belong to the same `userId` and the same `dayId` as recorded in the
conflict itself, and those two rows overlap; thus cross-user and cross-day
pairs never produce a conflict. -/
theorem conflicts_same_user_day (sels : List SelRow) (c : Conflict)
    (hc : c ∈ getConflicts sels) :
    ∃ x y, x ∈ sels ∧ y ∈ sels ∧
      x.user_id = c.userId ∧ y.user_id = c.userId ∧
      x.day_id = c.dayId ∧ y.day_id = c.dayId ∧
      overlaps x y = true ∧ c.acts = [mkActRef x, mkActRef y] := by
  obtain ⟨x, y, hmem, huy, hdy, hov, rfl⟩ := mem_getConflicts.mp hc
  have hsub := pairsAfter_subset hmem
  exact ⟨x, y, hsub.1, hsub.2, rfl, huy, rfl, hdy, hov, rfl⟩

/-- The spec's extended-hours example: 23:00-25:30 for user 1 on day 5. -/
def wD : SelRow :=
  { user_id := 1, act_id := 13, act_name := "Night Act", day_id := 5,
    stage_id := 2, stage_name := "Tent", start_time := "23:00",
    end_time := "25:30", display_name := "Ann" }

/-- The spec's extended-hours example: 24:30-26:00 for user 1 on day 5. -/
def wE : SelRow :=
  { user_id := 1, act_id := 14, act_name := "Late Act", day_id := 5,
    stage_id := 3, stage_name := "Club", start_time := "24:30",
    end_time := "26:00", display_name := "Ann" }

theorem conflict_pair_iff_overlap_witness :
    (([wD, wE].map fun s => (s.user_id, s.act_id)).Nodup ∧
        (wD, wE) ∈ pairsAfter [wD, wE] ∧
        wE.user_id = wD.user_id ∧ wE.day_id = wD.day_id) ∧
      mkConflict wD.user_id wD.day_id wD wE ∈ getConflicts [wD, wE] :=
  ⟨⟨by decide, by decide, by decide, by decide⟩,
    ((conflict_pair_iff_overlap [wD, wE] wD wE (by decide) (by decide)
      (by decide) (by decide)).1).mpr ⟨by decide, by decide⟩⟩

theorem conflicts_same_user_day_witness :
    mkConflict wD.user_id wD.day_id wD wE ∈ getConflicts [wD, wE] ∧
      ∃ x y, x ∈ [wD, wE] ∧ y ∈ [wD, wE] ∧
        x.user_id = (mkConflict wD.user_id wD.day_id wD wE).userId ∧
        y.user_id = (mkConflict wD.user_id wD.day_id wD wE).userId ∧
        x.day_id = (mkConflict wD.user_id wD.day_id wD wE).dayId ∧
        y.day_id = (mkConflict wD.user_id wD.day_id wD wE).dayId ∧
        overlaps x y = true ∧
        (mkConflict wD.user_id wD.day_id wD wE).acts = [mkActRef x, mkActRef y] :=
  ⟨by decide, conflicts_same_user_day [wD, wE] _ (by decide)⟩

/-! ## Room broadcast hub (`wsServer.ts`, src/unnamed/part_007)

Sockets are identified by a socket id `sid` (object identity in JS).  The hub
heap is the set of connected sockets (`wss.clients`) with their per-socket
fields, plus the module-level `groupRooms` map from group id to the set of
member sockets.  JS `Map` and `Set` preserve insertion order and contain no
duplicates, so both are modelled as ordered association/element lists. -/

/-- `WebSocket.OPEN` ready-state constant. -/
def WS_OPEN : Nat := 1

/-- The mutable fields of an `AuthenticatedSocket`. -/
structure SockData where
  userId : Nat
  groupRooms : List Nat
  isAlive : Bool
  readyState : Nat
  deriving DecidableEq, Repr

/-- The hub state: connected sockets (`wss.clients`) and the module-level
`groupRooms` map. -/
structure Hub where
  sockets : List (Nat × SockData)
  groupRooms : List (Nat × List Nat)
  deriving DecidableEq, Repr

def emptyHub : Hub := { sockets := [], groupRooms := [] }

/-- JS `Set.add`: append if not already present. -/
def setAdd (x : Nat) (l : List Nat) : List Nat := if x ∈ l then l else l ++ [x]

/-- JS `Set.delete`: remove the (unique) occurrence. -/
def setDel (x : Nat) (l : List Nat) : List Nat := l.erase x

/-- The joined-rooms set of socket `sid` (empty for an unknown socket). -/
def socketRooms (h : Hub) (sid : Nat) : List Nat :=
  match lookupA sid h.sockets with
  | some d => d.groupRooms
  | none => []

/-- The member list of group `g`'s room (empty when the room does not exist). -/
def roomMembers (h : Hub) (g : Nat) : List Nat :=
  (lookupA g h.groupRooms).getD []

/-- Mutate the stored data of socket `sid` (no-op for an unknown socket). -/
def updateSock (h : Hub) (sid : Nat) (f : SockData → SockData) : Hub :=
  { h with sockets := updateA sid f h.sockets }

/-- `joinGroupRoom(socket, groupId)`:
`if (!groupRooms.has(g)) groupRooms.set(g, new Set());
 groupRooms.get(g).add(socket); socket.groupRooms.add(g);` -/
def joinGroupRoom (h : Hub) (sid g : Nat) : Hub :=
  let rooms0 := if (lookupA g h.groupRooms).isSome then h.groupRooms
                else h.groupRooms ++ [(g, [])]
  { h with groupRooms := updateA g (setAdd sid) rooms0,
           sockets := updateA sid
             (fun d => { d with groupRooms := setAdd g d.groupRooms }) h.sockets }

/-- `leaveGroupRoom(socket, groupId)`:
`const room = groupRooms.get(g);
 if (room) { room.delete(socket); if (room.size === 0) groupRooms.delete(g); }
 socket.groupRooms.delete(g);` -/
def leaveGroupRoom (h : Hub) (sid g : Nat) : Hub :=
  let rooms' :=
    match lookupA g h.groupRooms with
    | none => h.groupRooms
    | some members =>
        let m' := setDel sid members
        if m'.length = 0 then removeA g h.groupRooms
        else updateA g (fun _ => m') h.groupRooms
  { h with groupRooms := rooms',
           sockets := updateA sid
             (fun d => { d with groupRooms := setDel g d.groupRooms }) h.sockets }

/-- `handleDisconnect(socket)`: leave every room in `socket.groupRooms`.
Each iteration of the JS `Set.forEach` removes exactly the visited element,
so the loop is a fold over a snapshot of the set. -/
def handleDisconnect (h : Hub) (sid : Nat) : Hub :=
  (socketRooms h sid).foldl (fun acc g => leaveGroupRoom acc sid g) h

/-- Remove a socket from `wss.clients` (connection teardown after
`terminate()` or `close`). -/
def removeSocket (h : Hub) (sid : Nat) : Hub :=
  { h with sockets := removeA sid h.sockets }

/-- The successful `connection` handler: a fresh socket object is added to
`wss.clients` with the verified `userId`, an empty room set and
`isAlive = true`. -/
def connectSocket (h : Hub) (sid uid : Nat) : Hub :=
  if (lookupA sid h.sockets).isSome then h
  else { h with sockets := h.sockets ++
          [(sid, { userId := uid, groupRooms := [], isAlive := true,
                   readyState := WS_OPEN })] }

/-- `broadcastToGroup(groupId, message, excludeUserId)`: the list of sockets
the serialized event is sent to.  `socket.userId !== excludeUserId` is always
true when `excludeUserId` is `undefined` (`none`). -/
def broadcastToGroup (h : Hub) (g : Nat) (excludeUserId : Option Nat) : List Nat :=
  match lookupA g h.groupRooms with
  | none => []
  | some members =>
      members.filter fun sid =>
        match lookupA sid h.sockets with
        | some d => decide (some d.userId ≠ excludeUserId) && decide (d.readyState = WS_OPEN)
        | none => false

/-- One socket's turn in the heartbeat sweep: a socket whose `isAlive` flag is
still false is disconnected and terminated; otherwise its flag is cleared
(and a PING probe is sent). -/
def sweepStep (h : Hub) (sid : Nat) : Hub :=
  match lookupA sid h.sockets with
  | none => h
  | some d =>
      if d.isAlive then updateSock h sid (fun d => { d with isAlive := false })
      else removeSocket (handleDisconnect h sid) sid

/-- The 30-second heartbeat interval body: visit every connected socket. -/
def heartbeatSweep (h : Hub) : Hub :=
  (h.sockets.map Prod.fst).foldl sweepStep h

/-- The `pong` / `PONG` handler: `socket.isAlive = true`. -/
def pongSocket (h : Hub) (sid : Nat) : Hub :=
  updateSock h sid (fun d => { d with isAlive := true })

/-- `sid` is a currently connected socket (member of `wss.clients`). -/
def connected (h : Hub) (sid : Nat) : Bool := (lookupA sid h.sockets).isSome

/-- The externally triggerable room-membership events: a successful connection
handshake, the JOIN_GROUP and LEAVE_GROUP messages (only a live socket can
send a message), and connection teardown (close / error / termination). -/
inductive Op where
  | connect (sid uid : Nat)
  | join (sid g : Nat)
  | leave (sid g : Nat)
  | disconnect (sid : Nat)
  deriving DecidableEq, Repr

def applyOp (h : Hub) : Op → Hub
  | .connect sid uid => connectSocket h sid uid
  | .join sid g => if connected h sid then joinGroupRoom h sid g else h
  | .leave sid g => if connected h sid then leaveGroupRoom h sid g else h
  | .disconnect sid =>
      if connected h sid then removeSocket (handleDisconnect h sid) sid else h

def applyOps (ops : List Op) : Hub := ops.foldl applyOp emptyHub

/-- Well-formedness of a hub state: unique socket and room keys, rooms and
per-socket room sets are duplicate-free, no room in the map is empty, every
room member is a connected socket, and room membership is synchronized with
the per-socket `groupRooms` sets. -/
def WF (h : Hub) : Prop :=
  (h.sockets.map Prod.fst).Nodup ∧
  (h.groupRooms.map Prod.fst).Nodup ∧
  (∀ g, (roomMembers h g).Nodup) ∧
  (∀ g, lookupA g h.groupRooms ≠ some []) ∧
  (∀ sid, (socketRooms h sid).Nodup) ∧
  (∀ g sid, sid ∈ roomMembers h g → connected h sid = true) ∧
  (∀ g sid, sid ∈ roomMembers h g ↔ g ∈ socketRooms h sid)

/-! ### Set-operation lemmas -/

theorem mem_setAdd {x y : Nat} {l : List Nat} : y ∈ setAdd x l ↔ y = x ∨ y ∈ l := by
  unfold setAdd
  by_cases h : x ∈ l
  · simp only [if_pos h, List.mem_append]
    constructor
    · exact Or.inr
    · rintro (rfl | hy)
      · exact h
      · exact hy
  · simp [if_neg h, or_comm]

theorem setAdd_nodup {x : Nat} {l : List Nat} (h : l.Nodup) : (setAdd x l).Nodup := by
  unfold setAdd
  by_cases hx : x ∈ l
  · simpa [hx] using h
  · simp [hx, List.nodup_append, h]

theorem setAdd_ne_nil (x : Nat) (l : List Nat) : setAdd x l ≠ [] := by
  unfold setAdd
  by_cases hx : x ∈ l
  · simp only [if_pos hx]
    intro h
    rw [h] at hx
    simp at hx
  · simp [hx]

theorem setAdd_idem (x : Nat) (l : List Nat) : setAdd x (setAdd x l) = setAdd x l := by
  have h : x ∈ setAdd x l := mem_setAdd.mpr (Or.inl rfl)
  rw [setAdd, if_pos h]

/-! ### Further association-list lemmas -/

theorem lookupA_removeA_self {α : Type} {k : Nat} {l : List (Nat × α)}
    (hnd : (l.map Prod.fst).Nodup) : lookupA k (removeA k l) = none := by
  induction l with
  | nil => simp [removeA, lookupA]
  | cons p rest ih =>
    obtain ⟨k', v⟩ := p
    rw [List.map_cons, List.nodup_cons] at hnd
    by_cases h : k' = k
    · subst h
      simp only [removeA, if_pos rfl]
      rw [lookupA_eq_none_iff]
      exact hnd.1
    · simp [removeA, h, lookupA, ih hnd.2]

theorem lookupA_removeA_ne {α : Type} {k k' : Nat} (h : k' ≠ k) (l : List (Nat × α)) :
    lookupA k' (removeA k l) = lookupA k' l := by
  induction l with
  | nil => simp [removeA, lookupA]
  | cons p rest ih =>
    obtain ⟨k'', v⟩ := p
    by_cases h1 : k'' = k
    · subst h1
      have h2 : ¬ (k'' = k') := fun hh => h hh.symm
      simp [removeA, lookupA, h2]
    · simp [removeA, lookupA, h1, ih]

theorem keys_removeA_sublist {α : Type} (k : Nat) (l : List (Nat × α)) :
    ((removeA k l).map Prod.fst).Sublist (l.map Prod.fst) := by
  induction l with
  | nil => simp [removeA]
  | cons p rest ih =>
    obtain ⟨k', v⟩ := p
    by_cases h : k' = k
    · simp only [removeA, if_pos h, List.map_cons]
      exact (List.sublist_cons_self _ _)
    · simp only [removeA, if_neg h, List.map_cons]
      exact ih.cons₂ _

theorem keys_removeA_nodup {α : Type} {k : Nat} {l : List (Nat × α)}
    (hnd : (l.map Prod.fst).Nodup) : ((removeA k l).map Prod.fst).Nodup :=
  (keys_removeA_sublist k l).nodup hnd

theorem updateA_eq_self {α : Type} {k : Nat} {f : α → α} {l : List (Nat × α)}
    (h : ∀ v, lookupA k l = some v → f v = v) : updateA k f l = l := by
  induction l with
  | nil => simp [updateA]
  | cons p rest ih =>
    obtain ⟨k', v⟩ := p
    by_cases hk : k' = k
    · subst hk
      have := h v (by simp [lookupA])
      simp [updateA, this]
    · simp only [updateA, if_neg hk, List.cons.injEq, true_and]
      apply ih
      intro v' hv'
      apply h
      simpa [lookupA, hk] using hv'

theorem updateA_updateA {α : Type} (k : Nat) (f g : α → α) (l : List (Nat × α)) :
    updateA k f (updateA k g l) = updateA k (fun v => f (g v)) l := by
  induction l with
  | nil => simp [updateA]
  | cons p rest ih =>
    obtain ⟨k', v⟩ := p
    by_cases hk : k' = k <;> simp [updateA, hk, ih]

/-! ### Simulation lemmas for the hub operations -/

theorem sockets_joinGroupRoom (h : Hub) (sid g : Nat) :
    (joinGroupRoom h sid g).sockets =
      updateA sid (fun d => { d with groupRooms := setAdd g d.groupRooms }) h.sockets := rfl

theorem groupRooms_joinGroupRoom (h : Hub) (sid g : Nat) :
    (joinGroupRoom h sid g).groupRooms =
      updateA g (setAdd sid)
        (if (lookupA g h.groupRooms).isSome then h.groupRooms
         else h.groupRooms ++ [(g, [])]) := rfl

theorem sockets_leaveGroupRoom (h : Hub) (sid g : Nat) :
    (leaveGroupRoom h sid g).sockets =
      updateA sid (fun d => { d with groupRooms := setDel g d.groupRooms }) h.sockets := rfl

theorem groupRooms_leaveGroupRoom (h : Hub) (sid g : Nat) :
    (leaveGroupRoom h sid g).groupRooms =
      match lookupA g h.groupRooms with
      | none => h.groupRooms
      | some members =>
          if (setDel sid members).length = 0 then removeA g h.groupRooms
          else updateA g (fun _ => setDel sid members) h.groupRooms := rfl

theorem lookupA_join_rooms (h : Hub) (sid g g' : Nat) :
    lookupA g' (joinGroupRoom h sid g).groupRooms =
      if g' = g then some (setAdd sid (roomMembers h g))
      else lookupA g' h.groupRooms := by
  rw [groupRooms_joinGroupRoom]
  by_cases hg : g' = g
  · subst hg
    rw [if_pos rfl, lookupA_updateA_self]
    cases hm : lookupA g' h.groupRooms with
    | some m => simp [hm, roomMembers]
    | none =>
      simp only [hm, Option.isSome_none, Bool.false_eq_true, if_false,
        lookupA_append, hm, roomMembers]
      simp [lookupA]
  · rw [if_neg hg, lookupA_updateA_ne hg]
    by_cases hm : (lookupA g h.groupRooms).isSome
    · rw [if_pos hm]
    · rw [if_neg hm, lookupA_append]
      cases hl : lookupA g' h.groupRooms with
      | some m => simp
      | none => simp [lookupA, Ne.symm hg]

theorem roomMembers_joinGroupRoom (h : Hub) (sid g g' : Nat) :
    roomMembers (joinGroupRoom h sid g) g' =
      if g' = g then setAdd sid (roomMembers h g) else roomMembers h g' := by
  rw [roomMembers, lookupA_join_rooms]
  by_cases hg : g' = g <;> simp [hg, roomMembers]

theorem connected_joinGroupRoom (h : Hub) (sid g sid' : Nat) :
    connected (joinGroupRoom h sid g) sid' = connected h sid' := by
  rw [connected, connected, sockets_joinGroupRoom]
  by_cases hs : sid' = sid
  · subst hs
    rw [lookupA_updateA_self]
    cases lookupA sid' h.sockets <;> rfl
  · rw [lookupA_updateA_ne hs]

theorem socketRooms_joinGroupRoom_self (h : Hub) (sid g : Nat)
    (hc : connected h sid = true) :
    socketRooms (joinGroupRoom h sid g) sid = setAdd g (socketRooms h sid) := by
  rw [connected, Option.isSome_iff_exists] at hc
  obtain ⟨d, hd⟩ := hc
  rw [socketRooms, sockets_joinGroupRoom, lookupA_updateA_self, hd]
  simp [socketRooms, hd]

theorem socketRooms_joinGroupRoom_ne (h : Hub) (sid g : Nat) {sid' : Nat}
    (hs : sid' ≠ sid) :
    socketRooms (joinGroupRoom h sid g) sid' = socketRooms h sid' := by
  rw [socketRooms, socketRooms, sockets_joinGroupRoom, lookupA_updateA_ne hs]

theorem lookupA_leave_rooms (h : Hub) (sid g g' : Nat)
    (hnd : (h.groupRooms.map Prod.fst).Nodup) :
    lookupA g' (leaveGroupRoom h sid g).groupRooms =
      if g' = g then
        (if setDel sid (roomMembers h g) = [] then none
         else some (setDel sid (roomMembers h g)))
      else lookupA g' h.groupRooms := by
  rw [groupRooms_leaveGroupRoom]
  cases hm : lookupA g h.groupRooms with
  | none =>
    have hrm : roomMembers h g = [] := by simp [roomMembers, hm]
    by_cases hg : g' = g
    · subst hg
      simp [hm, hrm, setDel]
    · simp [hg]
  | some members =>
    have hrm : roomMembers h g = members := by simp [roomMembers, hm]
    rw [hrm]
    by_cases hg : g' = g
    · subst hg
      rw [if_pos rfl]
      by_cases hz : setDel sid members = []
      · simp [hz, lookupA_removeA_self hnd]
      · simp [hz, List.length_eq_zero, lookupA_updateA_self, hm]
    · rw [if_neg hg]
      by_cases hz : (setDel sid members).length = 0
      · simp only [if_pos hz]
        exact lookupA_removeA_ne hg _
      · simp only [if_neg hz]
        exact lookupA_updateA_ne hg _ _

theorem roomMembers_leaveGroupRoom (h : Hub) (sid g g' : Nat)
    (hnd : (h.groupRooms.map Prod.fst).Nodup) :
    roomMembers (leaveGroupRoom h sid g) g' =
      if g' = g then setDel sid (roomMembers h g) else roomMembers h g' := by
  rw [roomMembers, lookupA_leave_rooms h sid g g' hnd]
  by_cases hg : g' = g
  · subst hg
    rw [if_pos rfl]
    by_cases hz : setDel sid (roomMembers h g') = []
    · simp [hz]
    · simp [hz]
  · simp [hg, roomMembers]

theorem connected_leaveGroupRoom (h : Hub) (sid g sid' : Nat) :
    connected (leaveGroupRoom h sid g) sid' = connected h sid' := by
  rw [connected, connected, sockets_leaveGroupRoom]
  by_cases hs : sid' = sid
  · subst hs
    rw [lookupA_updateA_self]
    cases lookupA sid' h.sockets <;> rfl
  · rw [lookupA_updateA_ne hs]

theorem socketRooms_leaveGroupRoom_self (h : Hub) (sid g : Nat) :
    socketRooms (leaveGroupRoom h sid g) sid = setDel g (socketRooms h sid) := by
  rw [socketRooms, socketRooms, sockets_leaveGroupRoom, lookupA_updateA_self]
  cases hd : lookupA sid h.sockets with
  | some d => simp
  | none => simp [setDel]

theorem socketRooms_leaveGroupRoom_ne (h : Hub) (sid g : Nat) {sid' : Nat}
    (hs : sid' ≠ sid) :
    socketRooms (leaveGroupRoom h sid g) sid' = socketRooms h sid' := by
  rw [socketRooms, socketRooms, sockets_leaveGroupRoom, lookupA_updateA_ne hs]

theorem roomMembers_removeSocket (h : Hub) (sid g : Nat) :
    roomMembers (removeSocket h sid) g = roomMembers h g := rfl

theorem connected_removeSocket_self (h : Hub) (sid : Nat)
    (hnd : (h.sockets.map Prod.fst).Nodup) :
    connected (removeSocket h sid) sid = false := by
  rw [connected, removeSocket]
  simp [lookupA_removeA_self hnd]

theorem lookupA_removeSocket_ne (h : Hub) (sid : Nat) {sid' : Nat} (hs : sid' ≠ sid) :
    lookupA sid' (removeSocket h sid).sockets = lookupA sid' h.sockets :=
  lookupA_removeA_ne hs _

theorem socketRooms_removeSocket_self (h : Hub) (sid : Nat)
    (hnd : (h.sockets.map Prod.fst).Nodup) :
    socketRooms (removeSocket h sid) sid = [] := by
  rw [socketRooms, removeSocket]
  simp [lookupA_removeA_self hnd]

theorem socketRooms_removeSocket_ne (h : Hub) (sid : Nat) {sid' : Nat} (hs : sid' ≠ sid) :
    socketRooms (removeSocket h sid) sid' = socketRooms h sid' := by
  rw [socketRooms, socketRooms, lookupA_removeSocket_ne h sid hs]

theorem groupRooms_connectSocket (h : Hub) (sid uid : Nat) :
    (connectSocket h sid uid).groupRooms = h.groupRooms := by
  rw [connectSocket]
  by_cases hc : (lookupA sid h.sockets).isSome <;> simp [hc]

theorem roomMembers_connectSocket (h : Hub) (sid uid g : Nat) :
    roomMembers (connectSocket h sid uid) g = roomMembers h g := by
  rw [roomMembers, roomMembers, groupRooms_connectSocket]

theorem lookupA_connectSocket (h : Hub) (sid uid sid' : Nat) :
    lookupA sid' (connectSocket h sid uid).sockets =
      match lookupA sid' h.sockets with
      | some d => some d
      | none =>
          if sid' = sid then
            some { userId := uid, groupRooms := [], isAlive := true,
                   readyState := WS_OPEN }
          else none := by
  rw [connectSocket]
  by_cases hc : (lookupA sid h.sockets).isSome
  · rw [if_pos hc]
    cases hl : lookupA sid' h.sockets with
    | some d => rfl
    | none =>
      by_cases hs : sid' = sid
      · subst hs
        rw [hl] at hc
        simp at hc
      · simp [hs]
  · rw [if_neg hc]
    show lookupA sid' (h.sockets ++ _) = _
    rw [lookupA_append]
    cases hl : lookupA sid' h.sockets with
    | some d => rfl
    | none =>
      by_cases hs : sid' = sid
      · subst hs
        simp [lookupA]
      · simp [lookupA, Ne.symm hs, hs]

theorem socketRooms_connectSocket (h : Hub) (sid uid sid' : Nat) :
    socketRooms (connectSocket h sid uid) sid' = socketRooms h sid' := by
  rw [socketRooms, socketRooms, lookupA_connectSocket]
  cases hl : lookupA sid' h.sockets with
  | some d => rfl
  | none => by_cases hs : sid' = sid <;> simp [hs]

theorem connected_connectSocket (h : Hub) (sid uid sid' : Nat) :
    connected (connectSocket h sid uid) sid' =
      (connected h sid' || (sid' == sid)) := by
  rw [connected, connected, lookupA_connectSocket]
  cases hl : lookupA sid' h.sockets with
  | some d => rfl
  | none => by_cases hs : sid' = sid <;> simp [hs]

/-! ### Preservation of well-formedness -/

theorem WF_emptyHub : WF emptyHub := by
  refine ⟨by simp [emptyHub], by simp [emptyHub], ?_, ?_, ?_, ?_, ?_⟩
  · intro g
    simp [roomMembers, emptyHub, lookupA]
  · intro g
    simp [emptyHub, lookupA]
  · intro sid
    simp [socketRooms, emptyHub, lookupA]
  · intro g sid hmem
    simp [roomMembers, emptyHub, lookupA] at hmem
  · intro g sid
    simp [roomMembers, socketRooms, emptyHub, lookupA]

theorem WF_joinGroupRoom {h : Hub} (hWF : WF h) {sid : Nat} (g : Nat)
    (hc : connected h sid = true) : WF (joinGroupRoom h sid g) := by
  obtain ⟨hS, hR, hRnd, hRne, hsnd, hconn, hsync⟩ := hWF
  refine ⟨?_, ?_, ?_, ?_, ?_, ?_, ?_⟩
  · rw [sockets_joinGroupRoom, map_fst_updateA]
    exact hS
  · rw [groupRooms_joinGroupRoom, map_fst_updateA]
    by_cases hm : (lookupA g h.groupRooms).isSome
    · rw [if_pos hm]
      exact hR
    · rw [if_neg hm, List.map_append]
      have : g ∉ h.groupRooms.map Prod.fst := by
        rw [← lookupA_eq_none_iff]
        cases hl : lookupA g h.groupRooms with
        | some m => rw [hl] at hm; simp at hm
        | none => rfl
      simp [List.nodup_append, hR, this]
  · intro g'
    rw [roomMembers_joinGroupRoom]
    by_cases hg : g' = g
    · rw [if_pos hg]
      exact setAdd_nodup (hRnd g)
    · rw [if_neg hg]
      exact hRnd g'
  · intro g'
    rw [lookupA_join_rooms]
    by_cases hg : g' = g
    · rw [if_pos hg]
      intro hh
      exact setAdd_ne_nil sid (roomMembers h g) (by injection hh)
    · rw [if_neg hg]
      exact hRne g'
  · intro sid'
    by_cases hs : sid' = sid
    · subst hs
      rw [socketRooms_joinGroupRoom_self h sid' g hc]
      exact setAdd_nodup (hsnd sid')
    · rw [socketRooms_joinGroupRoom_ne h sid g hs]
      exact hsnd sid'
  · intro g' sid' hmem
    rw [connected_joinGroupRoom]
    rw [roomMembers_joinGroupRoom] at hmem
    by_cases hg : g' = g
    · rw [if_pos hg] at hmem
      rcases mem_setAdd.mp hmem with rfl | hmem'
      · exact hc
      · exact hconn g sid' hmem'
    · rw [if_neg hg] at hmem
      exact hconn g' sid' hmem
  · intro g' sid'
    rw [roomMembers_joinGroupRoom]
    by_cases hs : sid' = sid
    · subst hs
      rw [socketRooms_joinGroupRoom_self h sid' g hc]
      by_cases hg : g' = g
      · subst hg
        simp [mem_setAdd, hsync g' sid']
      · rw [if_neg hg]
        rw [mem_setAdd]
        simp [hg, hsync g' sid']
    · rw [socketRooms_joinGroupRoom_ne h sid g hs]
      by_cases hg : g' = g
      · subst hg
        rw [if_pos rfl, mem_setAdd]
        simp [hs, hsync g' sid']
      · rw [if_neg hg]
        exact hsync g' sid'

theorem WF_leaveGroupRoom {h : Hub} (hWF : WF h) (sid g : Nat) :
    WF (leaveGroupRoom h sid g) := by
  obtain ⟨hS, hR, hRnd, hRne, hsnd, hconn, hsync⟩ := hWF
  refine ⟨?_, ?_, ?_, ?_, ?_, ?_, ?_⟩
  · rw [sockets_leaveGroupRoom, map_fst_updateA]
    exact hS
  · rw [groupRooms_leaveGroupRoom]
    cases hm : lookupA g h.groupRooms with
    | none => exact hR
    | some members =>
      dsimp only
      by_cases hz : (setDel sid members).length = 0
      · rw [if_pos hz]
        exact keys_removeA_nodup hR
      · rw [if_neg hz, map_fst_updateA]
        exact hR
  · intro g'
    rw [roomMembers_leaveGroupRoom h sid g g' hR]
    by_cases hg : g' = g
    · rw [if_pos hg]
      exact (hRnd g).erase sid
    · rw [if_neg hg]
      exact hRnd g'
  · intro g'
    rw [lookupA_leave_rooms h sid g g' hR]
    by_cases hg : g' = g
    · rw [if_pos hg]
      by_cases hz : setDel sid (roomMembers h g) = []
      · simp [hz]
      · simp [hz]
    · rw [if_neg hg]
      exact hRne g'
  · intro sid'
    by_cases hs : sid' = sid
    · subst hs
      rw [socketRooms_leaveGroupRoom_self]
      exact (hsnd sid').erase g
    · rw [socketRooms_leaveGroupRoom_ne h sid g hs]
      exact hsnd sid'
  · intro g' sid' hmem
    rw [connected_leaveGroupRoom]
    rw [roomMembers_leaveGroupRoom h sid g g' hR] at hmem
    by_cases hg : g' = g
    · rw [if_pos hg] at hmem
      exact hconn g' sid' (hg ▸ List.mem_of_mem_erase hmem)
    · rw [if_neg hg] at hmem
      exact hconn g' sid' hmem
  · intro g' sid'
    rw [roomMembers_leaveGroupRoom h sid g g' hR]
    by_cases hs : sid' = sid
    · subst hs
      rw [socketRooms_leaveGroupRoom_self]
      by_cases hg : g' = g
      · subst hg
        rw [if_pos rfl, setDel, setDel, (hRnd g').mem_erase_iff, (hsnd sid').mem_erase_iff]
        constructor
        · rintro ⟨h1, h2⟩
          exact absurd rfl h1
        · rintro ⟨h1, h2⟩
          exact absurd rfl h1
      · rw [if_neg hg, setDel, (hsnd sid').mem_erase_iff]
        constructor
        · intro hm
          exact ⟨hg, (hsync g' sid').mp hm⟩
        · rintro ⟨-, hm⟩
          exact (hsync g' sid').mpr hm
    · rw [socketRooms_leaveGroupRoom_ne h sid g hs]
      by_cases hg : g' = g
      · subst hg
        rw [if_pos rfl, setDel, (hRnd g').mem_erase_iff]
        constructor
        · rintro ⟨-, hm⟩
          exact (hsync g' sid').mp hm
        · intro hm
          exact ⟨hs, (hsync g' sid').mpr hm⟩
      · rw [if_neg hg]
        exact hsync g' sid'

theorem WF_connectSocket {h : Hub} (hWF : WF h) (sid uid : Nat) :
    WF (connectSocket h sid uid) := by
  obtain ⟨hS, hR, hRnd, hRne, hsnd, hconn, hsync⟩ := hWF
  refine ⟨?_, ?_, ?_, ?_, ?_, ?_, ?_⟩
  · rw [connectSocket]
    by_cases hc : (lookupA sid h.sockets).isSome
    · rw [if_pos hc]
      exact hS
    · rw [if_neg hc]
      have hsid : sid ∉ h.sockets.map Prod.fst := by
        rw [← lookupA_eq_none_iff]
        cases hl : lookupA sid h.sockets with
        | some d => rw [hl] at hc; simp at hc
        | none => rfl
      simp [List.nodup_append, hS, hsid]
  · rw [groupRooms_connectSocket]
    exact hR
  · intro g
    rw [roomMembers_connectSocket]
    exact hRnd g
  · intro g
    rw [groupRooms_connectSocket]
    exact hRne g
  · intro sid'
    rw [socketRooms_connectSocket]
    exact hsnd sid'
  · intro g sid' hmem
    rw [roomMembers_connectSocket] at hmem
    rw [connected_connectSocket, hconn g sid' hmem, Bool.true_or]
  · intro g sid'
    rw [roomMembers_connectSocket, socketRooms_connectSocket]
    exact hsync g sid'

theorem WF_removeSocket {h : Hub} (hWF : WF h) {sid : Nat}
    (hno : ∀ g, sid ∉ roomMembers h g) : WF (removeSocket h sid) := by
  obtain ⟨hS, hR, hRnd, hRne, hsnd, hconn, hsync⟩ := hWF
  refine ⟨keys_removeA_nodup hS, hR, ?_, ?_, ?_, ?_, ?_⟩
  · intro g
    rw [roomMembers_removeSocket]
    exact hRnd g
  · intro g
    exact hRne g
  · intro sid'
    by_cases hs : sid' = sid
    · subst hs
      rw [socketRooms_removeSocket_self h sid' hS]
      exact List.nodup_nil
    · rw [socketRooms_removeSocket_ne h sid hs]
      exact hsnd sid'
  · intro g sid' hmem
    rw [roomMembers_removeSocket] at hmem
    have hs : sid' ≠ sid := fun hh => hno g (hh ▸ hmem)
    rw [connected, lookupA_removeSocket_ne h sid hs]
    exact hconn g sid' hmem
  · intro g sid'
    rw [roomMembers_removeSocket]
    by_cases hs : sid' = sid
    · subst hs
      rw [socketRooms_removeSocket_self h sid' hS]
      simp [hno g]
    · rw [socketRooms_removeSocket_ne h sid hs]
      exact hsync g sid'

/-! ### The disconnect fold -/

theorem socketRooms_foldLeave_self (L : List Nat) (h : Hub) (sid : Nat) :
    socketRooms (L.foldl (fun acc g => leaveGroupRoom acc sid g) h) sid =
      L.foldl (fun acc g => acc.erase g) (socketRooms h sid) := by
  induction L generalizing h with
  | nil => rfl
  | cons g0 L' ih =>
    rw [List.foldl_cons, List.foldl_cons, ih, socketRooms_leaveGroupRoom_self]
    rfl

theorem WF_foldLeave (L : List Nat) {h : Hub} (hWF : WF h) (sid : Nat) :
    WF (L.foldl (fun acc g => leaveGroupRoom acc sid g) h) := by
  induction L generalizing h with
  | nil => exact hWF
  | cons g0 L' ih =>
    rw [List.foldl_cons]
    exact ih (WF_leaveGroupRoom hWF sid g0)

theorem foldl_erase_self : ∀ l : List Nat, l.Nodup →
    l.foldl (fun acc g => acc.erase g) l = []
  | [], _ => rfl
  | g0 :: l', h => by
    rw [List.foldl_cons, List.erase_cons_head]
    exact foldl_erase_self l' (List.nodup_cons.mp h).2

theorem WF_handleDisconnect {h : Hub} (hWF : WF h) (sid : Nat) :
    WF (handleDisconnect h sid) :=
  WF_foldLeave _ hWF sid

theorem socketRooms_handleDisconnect {h : Hub} (hWF : WF h) (sid : Nat) :
    socketRooms (handleDisconnect h sid) sid = [] := by
  rw [handleDisconnect, socketRooms_foldLeave_self]
  exact foldl_erase_self _ (hWF.2.2.2.2.1 sid)

theorem notMem_rooms_handleDisconnect {h : Hub} (hWF : WF h) (sid : Nat) :
    ∀ g, sid ∉ roomMembers (handleDisconnect h sid) g := by
  intro g hmem
  have hsync := (WF_handleDisconnect hWF sid).2.2.2.2.2.2 g sid
  rw [hsync, socketRooms_handleDisconnect hWF sid] at hmem
  simp at hmem

theorem WF_disconnectClose {h : Hub} (hWF : WF h) (sid : Nat) :
    WF (removeSocket (handleDisconnect h sid) sid) :=
  WF_removeSocket (WF_handleDisconnect hWF sid) (notMem_rooms_handleDisconnect hWF sid)

theorem WF_applyOp {h : Hub} (hWF : WF h) (op : Op) : WF (applyOp h op) := by
  cases op with
  | connect sid uid => exact WF_connectSocket hWF sid uid
  | join sid g =>
    rw [applyOp]
    by_cases hc : connected h sid = true
    · rw [if_pos hc]
      exact WF_joinGroupRoom hWF g hc
    · rw [if_neg hc]
      exact hWF
  | leave sid g =>
    rw [applyOp]
    by_cases hc : connected h sid = true
    · rw [if_pos hc]
      exact WF_leaveGroupRoom hWF sid g
    · rw [if_neg hc]
      exact hWF
  | disconnect sid =>
    rw [applyOp]
    by_cases hc : connected h sid = true
    · rw [if_pos hc]
      exact WF_disconnectClose hWF sid
    · rw [if_neg hc]
      exact hWF

theorem WF_foldOps (ops : List Op) {h : Hub} (hWF : WF h) :
    WF (ops.foldl applyOp h) := by
  induction ops generalizing h with
  | nil => exact hWF
  | cons op ops' ih =>
    rw [List.foldl_cons]
    exact ih (WF_applyOp hWF op)

theorem WF_applyOps (ops : List Op) : WF (applyOps ops) :=
  WF_foldOps ops WF_emptyHub

theorem hub_ext {h1 h2 : Hub} (hs : h1.sockets = h2.sockets)
    (hr : h1.groupRooms = h2.groupRooms) : h1 = h2 := by
  cases h1
  cases h2
  simp_all

theorem removeA_eq_self {α : Type} {k : Nat} {l : List (Nat × α)}
    (h : lookupA k l = none) : removeA k l = l := by
  induction l with
  | nil => rfl
  | cons p rest ih =>
    obtain ⟨k', v⟩ := p
    by_cases hk : k' = k
    · subst hk
      simp [lookupA] at h
    · simp only [lookupA, if_neg hk] at h
      simp [removeA, hk, ih h]

theorem broadcast_no_room {h : Hub} {g : Nat} (ex : Option Nat)
    (hn : lookupA g h.groupRooms = none) : broadcastToGroup h g ex = [] := by
  rw [broadcastToGroup, hn]

/-! ### Claim theorems for the hub -/

/-- Claim C4: after any finite sequence of connection, join, leave and
disconnect operations starting from the empty hub, a session is in a room's
member set if and only if that group id is in the session's joined-rooms
set. -/
theorem room_membership_sync (ops : List Op) (sid g : Nat) :
    sid ∈ roomMembers (applyOps ops) g ↔ g ∈ socketRooms (applyOps ops) sid :=
  (WF_applyOps ops).2.2.2.2.2.2 g sid

/-- Claim C7: joining twice in a row produces the same hub state as joining
once, the room then holds exactly one entry for the session, and joining
creates the room when it does not yet exist. -/
theorem join_idempotent (h : Hub) (sid g : Nat) (hWF : WF h) :
    joinGroupRoom (joinGroupRoom h sid g) sid g = joinGroupRoom h sid g ∧
    List.count sid (roomMembers (joinGroupRoom h sid g) g) = 1 ∧
    (lookupA g h.groupRooms = none →
      lookupA g (joinGroupRoom h sid g).groupRooms = some [sid]) := by
  refine ⟨?_, ?_, ?_⟩
  · apply hub_ext
    · rw [sockets_joinGroupRoom, sockets_joinGroupRoom, updateA_updateA]
      congr 1
      funext d
      simp [setAdd_idem]
    · rw [groupRooms_joinGroupRoom (joinGroupRoom h sid g) sid g]
      have hsome : (lookupA g (joinGroupRoom h sid g).groupRooms).isSome := by
        rw [lookupA_join_rooms, if_pos rfl]
        rfl
      rw [if_pos hsome, groupRooms_joinGroupRoom, updateA_updateA]
      congr 1
      funext m
      rw [setAdd_idem]
  · rw [roomMembers_joinGroupRoom, if_pos rfl]
    exact List.count_eq_one_of_mem (setAdd_nodup (hWF.2.2.1 g))
      (mem_setAdd.mpr (Or.inl rfl))
  · intro hn
    rw [lookupA_join_rooms, if_pos rfl, roomMembers, hn]
    rfl

theorem leaveGroupRoom_not_mem_eq {h : Hub} (hWF : WF h) {sid g : Nat}
    (hmem : sid ∉ roomMembers h g) : leaveGroupRoom h sid g = h := by
  obtain ⟨hS, hR, hRnd, hRne, hsnd, hconn, hsync⟩ := hWF
  apply hub_ext
  · rw [sockets_leaveGroupRoom]
    apply updateA_eq_self
    intro d hd
    have hrooms : socketRooms h sid = d.groupRooms := by
      rw [socketRooms, hd]
    have hg : g ∉ d.groupRooms := by
      rw [← hrooms]
      intro hgmem
      exact hmem ((hsync g sid).mpr hgmem)
    rw [setDel, List.erase_of_not_mem hg]
  · rw [groupRooms_leaveGroupRoom]
    cases hm : lookupA g h.groupRooms with
    | none => rfl
    | some members =>
      dsimp only
      have hsid : sid ∉ members := by
        intro hin
        exact hmem (by rw [roomMembers, hm]; exact hin)
      rw [setDel, List.erase_of_not_mem hsid]
      have hne : members ≠ [] := by
        intro hh
        exact hRne g (hh ▸ hm)
      rw [if_neg (fun hh => hne (List.length_eq_zero.mp hh))]
      apply updateA_eq_self
      intro v hv
      rw [hm] at hv
      exact Option.some.inj hv

/-- Claim C10: leaving a room the session is not a member of (including when
the room does not exist) leaves the hub state unchanged; leave is idempotent;
disconnect is idempotent, a no-op for an unknown session, and for a session
with no joined rooms it only removes the socket. -/
theorem leave_noop (h : Hub) (sid g : Nat) (hWF : WF h) :
    (sid ∉ roomMembers h g → leaveGroupRoom h sid g = h) ∧
    leaveGroupRoom (leaveGroupRoom h sid g) sid g = leaveGroupRoom h sid g ∧
    applyOp (applyOp h (Op.disconnect sid)) (Op.disconnect sid) =
      applyOp h (Op.disconnect sid) ∧
    (connected h sid = false → applyOp h (Op.disconnect sid) = h) ∧
    (socketRooms h sid = [] →
      applyOp h (Op.disconnect sid) = removeSocket h sid) := by
  refine ⟨fun hmem => leaveGroupRoom_not_mem_eq hWF hmem, ?_, ?_, ?_, ?_⟩
  · apply leaveGroupRoom_not_mem_eq (WF_leaveGroupRoom hWF sid g)
    rw [roomMembers_leaveGroupRoom h sid g g hWF.2.1, if_pos rfl, setDel,
      (hWF.2.2.1 g).mem_erase_iff]
    intro hh
    exact hh.1 rfl
  · by_cases hc : connected h sid = true
    · have e1 : applyOp h (Op.disconnect sid) =
          removeSocket (handleDisconnect h sid) sid := by
        show (if connected h sid = true then _ else _) = _
        rw [if_pos hc]
      rw [e1]
      have hc2 : connected (removeSocket (handleDisconnect h sid) sid) sid = false :=
        connected_removeSocket_self _ sid (WF_handleDisconnect hWF sid).1
      show (if connected _ sid = true then _ else _) = _
      rw [if_neg (by rw [hc2]; exact Bool.false_ne_true)]
    · have e1 : applyOp h (Op.disconnect sid) = h := by
        show (if connected h sid = true then _ else _) = _
        rw [if_neg hc]
      rw [e1, e1]
  · intro hc
    show (if connected h sid = true then _ else _) = _
    rw [if_neg (by rw [hc]; exact Bool.false_ne_true)]
  · intro hrooms
    by_cases hc : connected h sid = true
    · show (if connected h sid = true then _ else _) = _
      rw [if_pos hc, handleDisconnect, hrooms]
      rfl
    · show (if connected h sid = true then _ else _) = _
      rw [if_neg hc]
      have hn : lookupA sid h.sockets = none := by
        rw [connected] at hc
        cases hl : lookupA sid h.sockets with
        | some d => rw [hl] at hc; simp at hc
        | none => rfl
      apply hub_ext
      · rw [removeSocket]
        exact (removeA_eq_self hn).symm
      · rfl

theorem leave_noop_witness :
    WF (applyOps [Op.connect 1 7, Op.join 1 42]) ∧
      (1 ∉ roomMembers (applyOps [Op.connect 1 7, Op.join 1 42]) 99 ∧
        leaveGroupRoom (applyOps [Op.connect 1 7, Op.join 1 42]) 1 99 =
          applyOps [Op.connect 1 7, Op.join 1 42]) ∧
      connected (applyOps [Op.connect 1 7, Op.join 1 42]) 5 = false ∧
      applyOp (applyOps [Op.connect 1 7, Op.join 1 42]) (Op.disconnect 5) =
        applyOps [Op.connect 1 7, Op.join 1 42] :=
  ⟨WF_applyOps _,
    ⟨by decide,
      (leave_noop (applyOps [Op.connect 1 7, Op.join 1 42]) 1 99
        (WF_applyOps _)).1 (by decide)⟩,
    by decide,
    (leave_noop (applyOps [Op.connect 1 7, Op.join 1 42]) 5 99
      (WF_applyOps _)).2.2.2.1 (by decide)⟩

theorem roomMembers_foldLeave_subset (L : List Nat) {h : Hub} (hWF : WF h)
    (s : Nat) {sid' g : Nat}
    (hm : sid' ∈ roomMembers (L.foldl (fun acc g => leaveGroupRoom acc s g) h) g) :
    sid' ∈ roomMembers h g := by
  induction L generalizing h with
  | nil => exact hm
  | cons g0 L' ih =>
    rw [List.foldl_cons] at hm
    have hm' := ih (WF_leaveGroupRoom hWF s g0) hm
    rw [roomMembers_leaveGroupRoom h s g0 g hWF.2.1] at hm'
    by_cases hg : g = g0
    · subst hg
      rw [if_pos rfl, setDel] at hm'
      exact List.mem_of_mem_erase hm'
    · rw [if_neg hg] at hm'
      exact hm'

/-- Claim C6: rooms present in the hub's map are never empty, and once the
last remaining member leaves or disconnects, the room's entry is removed from
the map and a subsequent broadcast to that group id is a safe no-op. -/
theorem empty_room_cleanup (ops : List Op) (sid g : Nat) (ex : Option Nat) :
    (∀ p ∈ (applyOps ops).groupRooms, p.2 ≠ []) ∧
    (roomMembers (applyOps ops) g = [sid] →
      (lookupA g (leaveGroupRoom (applyOps ops) sid g).groupRooms = none ∧
        broadcastToGroup (leaveGroupRoom (applyOps ops) sid g) g ex = []) ∧
      (lookupA g (applyOp (applyOps ops) (Op.disconnect sid)).groupRooms = none ∧
        broadcastToGroup (applyOp (applyOps ops) (Op.disconnect sid)) g ex = [])) := by
  have hWF := WF_applyOps ops
  obtain ⟨hS, hR, hRnd, hRne, hsnd, hconn, hsync⟩ := hWF
  have hWF' := WF_applyOps ops
  constructor
  · intro p hp hpnil
    have := lookupA_of_mem_nodup hR hp
    exact hRne p.1 (by rw [this, hpnil])
  · intro hm
    have hleave : lookupA g (leaveGroupRoom (applyOps ops) sid g).groupRooms = none := by
      rw [lookupA_leave_rooms _ sid g g hR, if_pos rfl, hm]
      rw [setDel, List.erase_cons_head]
      simp
    have hcon : connected (applyOps ops) sid = true :=
      hconn g sid (by rw [hm]; exact List.mem_cons_self _ _)
    have hdis : lookupA g (applyOp (applyOps ops) (Op.disconnect sid)).groupRooms
        = none := by
      rw [applyOp, if_pos hcon]
      show lookupA g (handleDisconnect (applyOps ops) sid).groupRooms = none
      have hWFd := WF_handleDisconnect hWF' sid
      cases hl : lookupA g (handleDisconnect (applyOps ops) sid).groupRooms with
      | none => rfl
      | some members =>
        exfalso
        have hne : members ≠ [] := fun hh => hWFd.2.2.2.1 g (hh ▸ hl)
        obtain ⟨x, hx⟩ := List.exists_mem_of_ne_nil members hne
        have hx' : x ∈ roomMembers (handleDisconnect (applyOps ops) sid) g := by
          rw [roomMembers, hl]
          exact hx
        have hx2 : x ∈ roomMembers (applyOps ops) g :=
          roomMembers_foldLeave_subset _ hWF' sid hx'
        rw [hm] at hx2
        have hxsid : x = sid := by simpa using hx2
        subst hxsid
        exact notMem_rooms_handleDisconnect hWF' x g hx'
    exact ⟨⟨hleave, broadcast_no_room ex hleave⟩, ⟨hdis, broadcast_no_room ex hdis⟩⟩

theorem empty_room_cleanup_witness :
    roomMembers (applyOps [Op.connect 1 7, Op.join 1 42]) 42 = [1] ∧
      lookupA 42
        (leaveGroupRoom (applyOps [Op.connect 1 7, Op.join 1 42]) 1 42).groupRooms
        = none ∧
      broadcastToGroup (leaveGroupRoom (applyOps [Op.connect 1 7, Op.join 1 42]) 1 42)
        42 none = [] ∧
      lookupA 42
        (applyOp (applyOps [Op.connect 1 7, Op.join 1 42]) (Op.disconnect 1)).groupRooms
        = none :=
  ⟨by decide,
    ((empty_room_cleanup [Op.connect 1 7, Op.join 1 42] 1 42 none).2 (by decide)).1.1,
    ((empty_room_cleanup [Op.connect 1 7, Op.join 1 42] 1 42 none).2 (by decide)).1.2,
    ((empty_room_cleanup [Op.connect 1 7, Op.join 1 42] 1 42 none).2 (by decide)).2.1⟩

/-- Claim C3: a broadcast delivers the serialized event to exactly the
sessions of the group's room whose `userId` differs from `excludeUserId` and
whose connection is in the open ready state (non-ready sessions are silently
skipped); if no room exists for the group the call is a no-op; and if the
excluded user matches no member, the recipients are the same as with no
exclusion at all. -/
theorem broadcast_exclusion (h : Hub) (g : Nat) (ex : Option Nat) (sid u : Nat) :
    (sid ∈ broadcastToGroup h g ex ↔
      sid ∈ roomMembers h g ∧ ∃ d, lookupA sid h.sockets = some d ∧
        some d.userId ≠ ex ∧ d.readyState = WS_OPEN) ∧
    (lookupA g h.groupRooms = none → broadcastToGroup h g ex = []) ∧
    ((∀ m ∈ roomMembers h g, ∀ d, lookupA m h.sockets = some d → d.userId ≠ u) →
      broadcastToGroup h g (some u) = broadcastToGroup h g none) := by
  refine ⟨?_, fun hn => broadcast_no_room ex hn, ?_⟩
  · rw [broadcastToGroup]
    cases hr : lookupA g h.groupRooms with
    | none =>
      simp [roomMembers, hr]
    | some members =>
      have hrm : roomMembers h g = members := by rw [roomMembers, hr]; rfl
      rw [hrm, List.mem_filter]
      constructor
      · rintro ⟨hmem, hpred⟩
        refine ⟨hmem, ?_⟩
        cases hd : lookupA sid h.sockets with
        | none => rw [hd] at hpred; simp at hpred
        | some d =>
          rw [hd] at hpred
          simp only [Bool.and_eq_true, decide_eq_true_eq] at hpred
          exact ⟨d, rfl, hpred.1, hpred.2⟩
      · rintro ⟨hmem, d, hd, hne, hrs⟩
        refine ⟨hmem, ?_⟩
        rw [hd]
        simp [hne, hrs]
  · intro hexc
    rw [broadcastToGroup, broadcastToGroup]
    cases hr : lookupA g h.groupRooms with
    | none => rfl
    | some members =>
      have hrm : roomMembers h g = members := by rw [roomMembers, hr]; rfl
      apply List.filter_congr
      intro m hm
      cases hd : lookupA m h.sockets with
      | none => rfl
      | some d =>
        have hne : d.userId ≠ u := hexc m (hrm ▸ hm) d hd
        simp [hne]

theorem broadcast_exclusion_witness :
    (2 ∈ broadcastToGroup (applyOps [Op.connect 1 7, Op.connect 2 8,
        Op.join 1 42, Op.join 2 42]) 42 (some 7) ∧
      1 ∉ broadcastToGroup (applyOps [Op.connect 1 7, Op.connect 2 8,
        Op.join 1 42, Op.join 2 42]) 42 (some 7)) ∧
    lookupA 99 (applyOps [Op.connect 1 7, Op.connect 2 8,
        Op.join 1 42, Op.join 2 42]).groupRooms = none ∧
    broadcastToGroup (applyOps [Op.connect 1 7, Op.connect 2 8,
        Op.join 1 42, Op.join 2 42]) 99 (some 7) = [] ∧
    broadcastToGroup (applyOps [Op.connect 1 7, Op.connect 2 8,
        Op.join 1 42, Op.join 2 42]) 42 (some 5) =
      broadcastToGroup (applyOps [Op.connect 1 7, Op.connect 2 8,
        Op.join 1 42, Op.join 2 42]) 42 none :=
  ⟨⟨(broadcast_exclusion (applyOps [Op.connect 1 7, Op.connect 2 8,
        Op.join 1 42, Op.join 2 42]) 42 (some 7) 2 5).1.mpr
      ⟨by decide, by decide⟩,
    fun hmem =>
      by exact absurd (((broadcast_exclusion (applyOps [Op.connect 1 7, Op.connect 2 8,
        Op.join 1 42, Op.join 2 42]) 42 (some 7) 1 5).1.mp hmem)) (by decide)⟩,
    by decide,
    (broadcast_exclusion (applyOps [Op.connect 1 7, Op.connect 2 8,
        Op.join 1 42, Op.join 2 42]) 99 (some 7) 2 5).2.1 (by decide),
    (broadcast_exclusion (applyOps [Op.connect 1 7, Op.connect 2 8,
        Op.join 1 42, Op.join 2 42]) 42 none 2 5).2.2 (by decide)⟩

/-! ### Heartbeat sweep lemmas -/

theorem lookupA_foldLeave_ne (L : List Nat) (h : Hub) (s : Nat) {sid : Nat}
    (hs : sid ≠ s) :
    lookupA sid ((L.foldl (fun acc g => leaveGroupRoom acc s g) h)).sockets =
      lookupA sid h.sockets := by
  induction L generalizing h with
  | nil => rfl
  | cons g0 L' ih =>
    rw [List.foldl_cons, ih, sockets_leaveGroupRoom, lookupA_updateA_ne hs]

theorem lookupA_sweepStep_ne (h : Hub) {s' sid : Nat} (hs : sid ≠ s') :
    lookupA sid (sweepStep h s').sockets = lookupA sid h.sockets := by
  rw [sweepStep]
  cases hl : lookupA s' h.sockets with
  | none => rfl
  | some d =>
    dsimp only
    by_cases ha : d.isAlive = true
    · rw [if_pos ha]
      exact lookupA_updateA_ne hs _ _
    · rw [if_neg ha]
      show lookupA sid (removeA s' (handleDisconnect h s').sockets) = _
      rw [lookupA_removeA_ne hs, handleDisconnect, lookupA_foldLeave_ne _ _ _ hs]

theorem connected_sweepStep_false (h : Hub) (s' : Nat) {sid : Nat}
    (hc : connected h sid = false) : connected (sweepStep h s') sid = false := by
  by_cases hss : sid = s'
  · subst hss
    rw [connected] at hc
    have hn : lookupA sid h.sockets = none := by
      cases hl : lookupA sid h.sockets with
      | some d => rw [hl] at hc; simp at hc
      | none => rfl
    rw [sweepStep, hn]
    rw [connected, hn]
    rfl
  · rw [connected, lookupA_sweepStep_ne h hss]
    exact hc

theorem socketRooms_updateSock (h : Hub) (sid : Nat) (f : SockData → SockData)
    (hf : ∀ d, (f d).groupRooms = d.groupRooms) (sid' : Nat) :
    socketRooms (updateSock h sid f) sid' = socketRooms h sid' := by
  by_cases hs : sid' = sid
  · subst hs
    rw [socketRooms, socketRooms, updateSock]
    show (match lookupA sid' (updateA sid' f h.sockets) with
      | some d => d.groupRooms | none => []) = _
    rw [lookupA_updateA_self]
    cases lookupA sid' h.sockets with
    | some d => exact hf d
    | none => rfl
  · rw [socketRooms, socketRooms, updateSock]
    show (match lookupA sid' (updateA sid f h.sockets) with
      | some d => d.groupRooms | none => []) = _
    rw [lookupA_updateA_ne hs]

theorem connected_updateSock (h : Hub) (sid : Nat) (f : SockData → SockData)
    (sid' : Nat) : connected (updateSock h sid f) sid' = connected h sid' := by
  by_cases hs : sid' = sid
  · subst hs
    rw [connected, connected, updateSock]
    show (lookupA sid' (updateA sid' f h.sockets)).isSome = _
    rw [lookupA_updateA_self]
    cases lookupA sid' h.sockets <;> rfl
  · rw [connected, connected, updateSock]
    show (lookupA sid' (updateA sid f h.sockets)).isSome = _
    rw [lookupA_updateA_ne hs]

theorem WF_updateSock {h : Hub} (hWF : WF h) (sid : Nat) (f : SockData → SockData)
    (hf : ∀ d, (f d).groupRooms = d.groupRooms) : WF (updateSock h sid f) := by
  obtain ⟨hS, hR, hRnd, hRne, hsnd, hconn, hsync⟩ := hWF
  refine ⟨?_, hR, hRnd, hRne, ?_, ?_, ?_⟩
  · rw [updateSock]
    show (List.map Prod.fst (updateA sid f h.sockets)).Nodup
    rw [map_fst_updateA]
    exact hS
  · intro sid'
    rw [socketRooms_updateSock h sid f hf]
    exact hsnd sid'
  · intro g sid' hmem
    rw [connected_updateSock]
    exact hconn g sid' hmem
  · intro g sid'
    rw [socketRooms_updateSock h sid f hf]
    exact hsync g sid'

theorem WF_sweepStep {h : Hub} (hWF : WF h) (s' : Nat) : WF (sweepStep h s') := by
  rw [sweepStep]
  cases hl : lookupA s' h.sockets with
  | none => exact hWF
  | some d =>
    dsimp only
    by_cases ha : d.isAlive = true
    · rw [if_pos ha]
      exact WF_updateSock hWF s' _ (fun d => rfl)
    · rw [if_neg ha]
      exact WF_disconnectClose hWF s'

theorem notMem_room_sweepStep {h : Hub} (hWF : WF h) (s' : Nat) {sid g : Nat}
    (hm : sid ∉ roomMembers h g) : sid ∉ roomMembers (sweepStep h s') g := by
  rw [sweepStep]
  cases hl : lookupA s' h.sockets with
  | none => exact hm
  | some d =>
    dsimp only
    by_cases ha : d.isAlive = true
    · rw [if_pos ha]
      exact hm
    · rw [if_neg ha]
      intro hmem
      rw [roomMembers_removeSocket] at hmem
      exact hm (roomMembers_foldLeave_subset _ hWF s' hmem)

theorem WF_foldSweep (L : List Nat) {h : Hub} (hWF : WF h) :
    WF (L.foldl sweepStep h) := by
  induction L generalizing h with
  | nil => exact hWF
  | cons s0 L' ih =>
    rw [List.foldl_cons]
    exact ih (WF_sweepStep hWF s0)

theorem connected_foldSweep_false (L : List Nat) {h : Hub} {sid : Nat}
    (hc : connected h sid = false) : connected (L.foldl sweepStep h) sid = false := by
  induction L generalizing h with
  | nil => exact hc
  | cons s0 L' ih =>
    rw [List.foldl_cons]
    exact ih (connected_sweepStep_false h s0 hc)

theorem notMem_foldSweep (L : List Nat) {h : Hub} (hWF : WF h) {sid g : Nat}
    (hm : sid ∉ roomMembers h g) : sid ∉ roomMembers (L.foldl sweepStep h) g := by
  induction L generalizing h with
  | nil => exact hm
  | cons s0 L' ih =>
    rw [List.foldl_cons]
    exact ih (WF_sweepStep hWF s0) (notMem_room_sweepStep hWF s0 hm)

theorem lookupA_foldSweep_notin (L : List Nat) {h : Hub} {sid : Nat}
    (hnin : sid ∉ L) :
    lookupA sid (L.foldl sweepStep h).sockets = lookupA sid h.sockets := by
  induction L generalizing h with
  | nil => rfl
  | cons s0 L' ih =>
    rw [List.mem_cons, not_or] at hnin
    rw [List.foldl_cons, ih hnin.2, lookupA_sweepStep_ne h hnin.1]

theorem foldSweep_evicts (L : List Nat) {h : Hub} (hWF : WF h) {sid : Nat}
    {d : SockData} (hd : lookupA sid h.sockets = some d)
    (hdead : d.isAlive = false) (hin : sid ∈ L) :
    connected (L.foldl sweepStep h) sid = false ∧
      ∀ g, sid ∉ roomMembers (L.foldl sweepStep h) g := by
  induction L generalizing h with
  | nil => simp at hin
  | cons s0 L' ih =>
    rw [List.foldl_cons]
    by_cases hs : s0 = sid
    · subst hs
      have hstep : sweepStep h s0 = removeSocket (handleDisconnect h s0) s0 := by
        rw [sweepStep, hd]
        dsimp only
        rw [if_neg (by rw [hdead]; exact Bool.false_ne_true)]
      rw [hstep]
      have hWF2 := WF_disconnectClose hWF s0
      have hc2 : connected (removeSocket (handleDisconnect h s0) s0) s0 = false :=
        connected_removeSocket_self _ s0 (WF_handleDisconnect hWF s0).1
      have hm2 : ∀ g, s0 ∉ roomMembers (removeSocket (handleDisconnect h s0) s0) g := by
        intro g hmem
        rw [roomMembers_removeSocket] at hmem
        exact notMem_rooms_handleDisconnect hWF s0 g hmem
      exact ⟨connected_foldSweep_false L' hc2,
        fun g => notMem_foldSweep L' hWF2 (hm2 g)⟩
    · have hin' : sid ∈ L' := by
        rcases List.mem_cons.mp hin with hh | hh
        · exact absurd hh.symm hs
        · exact hh
      have hd2 : lookupA sid (sweepStep h s0).sockets = some d := by
        rw [lookupA_sweepStep_ne h (fun hh => hs hh.symm), hd]
      exact ih (WF_sweepStep hWF s0) hd2 hin'

theorem foldSweep_marks (L : List Nat) {h : Hub} {sid : Nat} {d : SockData}
    (hd : lookupA sid h.sockets = some d) (halive : d.isAlive = true)
    (hin : sid ∈ L) (hnd : L.Nodup) :
    lookupA sid (L.foldl sweepStep h).sockets = some { d with isAlive := false } := by
  induction L generalizing h with
  | nil => simp at hin
  | cons s0 L' ih =>
    rw [List.nodup_cons] at hnd
    rw [List.foldl_cons]
    by_cases hs : s0 = sid
    · subst hs
      have hstep : sweepStep h s0 =
          updateSock h s0 (fun d => { d with isAlive := false }) := by
        rw [sweepStep, hd]
        dsimp only
        rw [if_pos halive]
      rw [hstep]
      have hnin : s0 ∉ L' := hnd.1
      rw [lookupA_foldSweep_notin L' hnin, updateSock]
      show lookupA s0 (updateA s0 _ h.sockets) = _
      rw [lookupA_updateA_self, hd]
      rfl
    · have hin' : sid ∈ L' := by
        rcases List.mem_cons.mp hin with hh | hh
        · exact absurd hh.symm hs
        · exact hh
      have hd2 : lookupA sid (sweepStep h s0).sockets = some d := by
        rw [lookupA_sweepStep_ne h (fun hh => hs hh.symm), hd]
      exact ih hd2 hin' hnd.2

theorem WF_heartbeatSweep {h : Hub} (hWF : WF h) : WF (heartbeatSweep h) :=
  WF_foldSweep _ hWF

theorem mem_keys_of_lookupA {α : Type} {k : Nat} {v : α} {l : List (Nat × α)}
    (h : lookupA k l = some v) : k ∈ l.map Prod.fst :=
  List.mem_map.mpr ⟨(k, v), lookupA_mem h, rfl⟩

/-- Claim C5: a connected session whose `alive` flag is false when the
heartbeat sweep runs is disconnected by that sweep and vacated from every
room; a session that is alive at one sweep but never acknowledges the probe
survives that sweep (with its flag cleared) and is evicted by the next sweep,
i.e. within exactly one additional heartbeat interval. -/
theorem heartbeat_eviction (h : Hub) (hWF : WF h) (sid : Nat) (d : SockData)
    (hd : lookupA sid h.sockets = some d) :
    (d.isAlive = false →
      connected (heartbeatSweep h) sid = false ∧
      ∀ g, sid ∉ roomMembers (heartbeatSweep h) g) ∧
    (d.isAlive = true →
      lookupA sid (heartbeatSweep h).sockets = some { d with isAlive := false } ∧
      connected (heartbeatSweep (heartbeatSweep h)) sid = false ∧
      ∀ g, sid ∉ roomMembers (heartbeatSweep (heartbeatSweep h)) g) := by
  have hin : sid ∈ h.sockets.map Prod.fst := mem_keys_of_lookupA hd
  constructor
  · intro hdead
    exact foldSweep_evicts _ hWF hd hdead hin
  · intro halive
    have hmark : lookupA sid (heartbeatSweep h).sockets =
        some { d with isAlive := false } :=
      foldSweep_marks _ hd halive hin hWF.1
    have hWF1 : WF (heartbeatSweep h) := WF_heartbeatSweep hWF
    have hin1 : sid ∈ (heartbeatSweep h).sockets.map Prod.fst :=
      mem_keys_of_lookupA hmark
    have hevict := foldSweep_evicts ((heartbeatSweep h).sockets.map Prod.fst)
      hWF1 hmark rfl hin1
    exact ⟨hmark, hevict.1, hevict.2⟩

theorem heartbeat_eviction_witness :
    lookupA 1 (applyOps [Op.connect 1 7, Op.join 1 42]).sockets =
      some { userId := 7, groupRooms := [42], isAlive := true,
             readyState := WS_OPEN } ∧
    lookupA 1 (heartbeatSweep (applyOps [Op.connect 1 7, Op.join 1 42])).sockets =
      some { userId := 7, groupRooms := [42], isAlive := false,
             readyState := WS_OPEN } ∧
    connected (heartbeatSweep (heartbeatSweep
      (applyOps [Op.connect 1 7, Op.join 1 42]))) 1 = false ∧
    (1 ∉ roomMembers (heartbeatSweep (heartbeatSweep
      (applyOps [Op.connect 1 7, Op.join 1 42]))) 42) :=
  ⟨by decide,
    ((heartbeat_eviction (applyOps [Op.connect 1 7, Op.join 1 42]) (WF_applyOps _) 1
        { userId := 7, groupRooms := [42], isAlive := true, readyState := WS_OPEN }
        (by decide)).2 (by decide)).1,
    ((heartbeat_eviction (applyOps [Op.connect 1 7, Op.join 1 42]) (WF_applyOps _) 1
        { userId := 7, groupRooms := [42], isAlive := true, readyState := WS_OPEN }
        (by decide)).2 (by decide)).2.1,
    ((heartbeat_eviction (applyOps [Op.connect 1 7, Op.join 1 42]) (WF_applyOps _) 1
        { userId := 7, groupRooms := [42], isAlive := true, readyState := WS_OPEN }
        (by decide)).2 (by decide)).2.2 42⟩

/-! ## Connection handshake authentication (wsServer `connection` handler)

`verifyToken` (jsonwebtoken's `verify`) is an external collaborator: it is
modelled as a function returning the decoded `userId` or `none` when the
token is rejected (the `catch` branch). -/

inductive AuthResult where
  | closed (code : Nat) (reason : String)
  | session (userId : Nat) (groupRooms : List Nat) (isAlive : Bool)
  deriving DecidableEq, Repr

/-- The body of `wss.on('connection', ...)` up to the point where the socket
is either closed or fully initialized: missing token closes with
`(4001, "No token provided")`, a rejected token closes with
`(4001, "Invalid token")`, and on success the verified `userId` is bound,
`groupRooms` is empty and the socket is marked alive. -/
def handleConnection (verify : String → Option Nat) (token : Option String) :
    AuthResult :=
  match token with
  | none => .closed 4001 "No token provided"
  | some t =>
      match verify t with
      | none => .closed 4001 "Invalid token"
      | some uid => .session uid [] true

/-- Claim C8: authentication failure closes the connection immediately, with
reason strings distinguishing the missing-token case from the rejected-token
case; on success the verified userId is bound to the session, its room set is
empty and it is marked alive. -/
theorem auth_handshake (verify : String → Option Nat) (token : Option String) :
    (token = none →
      handleConnection verify token = .closed 4001 "No token provided") ∧
    (∀ t, token = some t → verify t = none →
      handleConnection verify token = .closed 4001 "Invalid token") ∧
    (∀ t uid, token = some t → verify t = some uid →
      handleConnection verify token = .session uid [] true) ∧
    ("No token provided" : String) ≠ "Invalid token" := by
  refine ⟨?_, ?_, ?_, by decide⟩
  · intro hn
    rw [hn, handleConnection]
  · intro t ht hv
    rw [ht, handleConnection, hv]
  · intro t uid ht hv
    rw [ht, handleConnection, hv]

theorem auth_handshake_witness :
    handleConnection (fun t => if t = "good" then some 7 else none) none =
      .closed 4001 "No token provided" ∧
    handleConnection (fun t => if t = "good" then some 7 else none) (some "bad") =
      .closed 4001 "Invalid token" ∧
    handleConnection (fun t => if t = "good" then some 7 else none) (some "good") =
      .session 7 [] true :=
  ⟨(auth_handshake (fun t => if t = "good" then some 7 else none) none).1 rfl,
    (auth_handshake (fun t => if t = "good" then some 7 else none) (some "bad")).2.1
      "bad" rfl (by decide),
    (auth_handshake (fun t => if t = "good" then some 7 else none) (some "good")).2.2.1
      "good" 7 rfl (by decide)⟩

/-! ## Selection API broadcasting (`addSelection` / `removeSelection`)

The database is modelled by the three tables the handlers read or write:
`selections` (unique per `(user_id, group_id, act_id)`), `group_members`
as `(group_id, user_id)` pairs, and the join of acts with `group_events`
as `(act_id, group_id)` pairs. -/

structure SelectionRow where
  user_id : Nat
  group_id : Nat
  act_id : Nat
  priority : Nat
  deriving DecidableEq, Repr

structure Db where
  selections : List SelectionRow
  members : List (Nat × Nat)
  groupActs : List (Nat × Nat)
  users : List (Nat × String)
  deriving DecidableEq, Repr

inductive WsEvent where
  | selectionAdded (userId actId groupId : Nat) (userName : String) (priority : Nat)
  | selectionRemoved (userId actId groupId : Nat)
  deriving DecidableEq, Repr

def selMatches (u g a : Nat) (s : SelectionRow) : Bool :=
  s.user_id == u && s.group_id == g && s.act_id == a

/-- `SELECT * FROM selections WHERE user_id = ? AND group_id = ? AND act_id = ?`
returned a row. -/
def hasSelection (db : Db) (u g a : Nat) : Bool :=
  db.selections.any (selMatches u g a)

/-- `addSelection`: membership check, act-in-group check, then either a
priority `UPDATE` (no broadcast) or an `INSERT` followed by a
`SELECTION_ADDED` broadcast excluding the acting user.  Returns the new
database, the broadcast calls made, and whether the request succeeded. -/
def addSelection (db : Db) (u g a prio : Nat) : Db × List WsEvent × Bool :=
  if (g, u) ∉ db.members then (db, [], false)
  else if (a, g) ∉ db.groupActs then (db, [], false)
  else if hasSelection db u g a then
    ({ db with selections := db.selections.map (fun s =>
        if selMatches u g a s then { s with priority := prio } else s) },
      [], true)
  else
    ({ db with selections := db.selections ++ [⟨u, g, a, prio⟩] },
      [.selectionAdded u a g ((lookupA u db.users).getD "") prio], true)

/-- `removeSelection`: membership check, then a `DELETE`; a
`SELECTION_REMOVED` broadcast is made only when `result.changes > 0`.
The response is a success message in both cases. -/
def removeSelection (db : Db) (u g a : Nat) : Db × List WsEvent × Bool :=
  if (g, u) ∉ db.members then (db, [], false)
  else
    let remaining := db.selections.filter (fun s => ! selMatches u g a s)
    if hasSelection db u g a then
      ({ db with selections := remaining }, [.selectionRemoved u a g], true)
    else
      ({ db with selections := remaining }, [], true)

/-- The persisted set of `(userId, groupId, actId)` triples. -/
def tripleSet (db : Db) : List (Nat × Nat × Nat) :=
  db.selections.map (fun s => (s.user_id, s.group_id, s.act_id))

theorem tripleSet_update_priority (db : Db) (u g a prio : Nat) :
    (db.selections.map
      (fun s => if selMatches u g a s then { s with priority := prio } else s)).map
        (fun s => (s.user_id, s.group_id, s.act_id)) = tripleSet db := by
  rw [tripleSet, List.map_map]
  apply List.map_congr_left
  intro s hs
  by_cases hm : selMatches u g a s <;> simp [hm]

/-- Claim C9: the selection API invokes the hub's broadcast exactly when the
persisted set of `(userId, groupId, actId)` triples changes: a fresh add
broadcasts `SELECTION_ADDED` and extends the triple set; re-adding an
existing selection updates only the priority, succeeds, broadcasts nothing
and leaves the triple set unchanged; removing an existing selection
broadcasts `SELECTION_REMOVED`; removing a non-existent selection succeeds
without broadcasting and leaves the database unchanged. -/
theorem selection_broadcast_iff_change (db : Db) (u g a prio : Nat)
    (hm : (g, u) ∈ db.members) (ha : (a, g) ∈ db.groupActs) :
    (hasSelection db u g a = true →
      (addSelection db u g a prio).2.1 = [] ∧
      (addSelection db u g a prio).2.2 = true ∧
      tripleSet (addSelection db u g a prio).1 = tripleSet db) ∧
    (hasSelection db u g a = false →
      (addSelection db u g a prio).2.1 =
        [.selectionAdded u a g ((lookupA u db.users).getD "") prio] ∧
      (addSelection db u g a prio).2.2 = true ∧
      tripleSet (addSelection db u g a prio).1 = tripleSet db ++ [(u, g, a)]) ∧
    (hasSelection db u g a = true →
      (removeSelection db u g a).2.1 = [.selectionRemoved u a g] ∧
      (removeSelection db u g a).2.2 = true) ∧
    (hasSelection db u g a = false →
      (removeSelection db u g a).2.1 = [] ∧
      (removeSelection db u g a).2.2 = true ∧
      (removeSelection db u g a).1 = db) := by
  refine ⟨?_, ?_, ?_, ?_⟩
  · intro hsel
    rw [addSelection, if_neg (by simp [hm]), if_neg (by simp [ha]), if_pos hsel]
    exact ⟨rfl, rfl, tripleSet_update_priority db u g a prio⟩
  · intro hsel
    rw [addSelection, if_neg (by simp [hm]), if_neg (by simp [ha]),
      if_neg (by rw [hsel]; exact Bool.false_ne_true)]
    refine ⟨rfl, rfl, ?_⟩
    simp [tripleSet]
  · intro hsel
    rw [removeSelection, if_neg (by simp [hm])]
    dsimp only
    rw [if_pos hsel]
    exact ⟨rfl, rfl⟩
  · intro hsel
    rw [removeSelection, if_neg (by simp [hm])]
    dsimp only
    rw [if_neg (by rw [hsel]; exact Bool.false_ne_true)]
    refine ⟨rfl, rfl, ?_⟩
    have hall : ∀ s ∈ db.selections, selMatches u g a s = false := by
      rw [hasSelection] at hsel
      intro s hs
      cases hms : selMatches u g a s with
      | false => rfl
      | true =>
        exfalso
        have : db.selections.any (selMatches u g a) = true :=
          List.any_eq_true.mpr ⟨s, hs, hms⟩
        rw [hsel] at this
        exact Bool.false_ne_true this
    have hfilter : db.selections.filter (fun s => ! selMatches u g a s)
        = db.selections :=
      List.filter_eq_self.mpr (fun s hs => by rw [hall s hs]; rfl)
    show { db with selections :=
      db.selections.filter (fun s => ! selMatches u g a s) } = db
    rw [hfilter]

/-- A sample database: user 7 in group 42, acts 100 and 101 in group 42,
and an existing selection of act 100. -/
def wDb : Db :=
  { selections := [⟨7, 42, 100, 1⟩],
    members := [(42, 7)],
    groupActs := [(100, 42), (101, 42)],
    users := [(7, "Ann")] }

theorem selection_broadcast_iff_change_witness :
    ((42, 7) ∈ wDb.members ∧ (101, 42) ∈ wDb.groupActs ∧
      hasSelection wDb 7 42 101 = false ∧ hasSelection wDb 7 42 100 = true) ∧
    (addSelection wDb 7 42 101 2).2.1 = [.selectionAdded 7 101 42 "Ann" 2] ∧
    (addSelection wDb 7 42 100 2).2.1 = [] ∧
    (removeSelection wDb 7 42 100).2.1 = [.selectionRemoved 7 100 42] ∧
    (removeSelection wDb 7 42 101).2.1 = [] :=
  ⟨⟨by decide, by decide, by decide, by decide⟩,
    ((selection_broadcast_iff_change wDb 7 42 101 2 (by decide) (by decide)).2.1
      (by decide)).1,
    ((selection_broadcast_iff_change wDb 7 42 100 2 (by decide) (by decide)).1
      (by decide)).1,
    ((selection_broadcast_iff_change wDb 7 42 100 2 (by decide) (by decide)).2.2.1
      (by decide)).1,
    ((selection_broadcast_iff_change wDb 7 42 101 2 (by decide) (by decide)).2.2.2
      (by decide)).1⟩

theorem join_idempotent_witness :
    WF (applyOps [Op.connect 1 7]) ∧
      joinGroupRoom (joinGroupRoom (applyOps [Op.connect 1 7]) 1 42) 1 42 =
        joinGroupRoom (applyOps [Op.connect 1 7]) 1 42 ∧
      List.count 1 (roomMembers (joinGroupRoom (applyOps [Op.connect 1 7]) 1 42) 42) = 1 ∧
      lookupA 42 (joinGroupRoom (applyOps [Op.connect 1 7]) 1 42).groupRooms = some [1] :=
  ⟨WF_applyOps _,
    (join_idempotent (applyOps [Op.connect 1 7]) 1 42 (WF_applyOps _)).1,
    (join_idempotent (applyOps [Op.connect 1 7]) 1 42 (WF_applyOps _)).2.1,
    (join_idempotent (applyOps [Op.connect 1 7]) 1 42 (WF_applyOps _)).2.2 (by decide)⟩

end FestivalPlanner
